import Mathlib

/-!
# KenLM beam scorer for CTC decoding: a verification development

Shallow embedding of `tensorflow/core/util/ctc/ctc_vocabulary.h`,
`tensorflow/core/util/ctc/ctc_beam_scorer.h` and of the `ScoreBeam` driver of
`tensorflow/core/util/ctc/ctc_beam_search_kenlm_test.cc`.

Conventions of the embedding
* `float` scores are rationals in the embedding of the scorer, and its
  definitions keep the additions in the order of the code. A statement that
  holds only without the rounding of `float` says so. Where the order of the
  additions decides a statement, the additions are made in binary32 with
  `add32`.
* `int` labels are `Int`; a `wchar_t` is the natural number of its code unit;
  a `std::wstring` is a list of them and a `std::string` a list of bytes.
* A C++ pointer to a trie node is an `Option`; `nullptr` is `none`.
* Methods that write through a pointer take the previous content of the
  object and return the new content.
* An operation whose C++ behaviour is an out-of-bounds array read or a failed
  `assert` returns `Except.error` with the corresponding `Fault`.
-/

namespace tensorflow
namespace ctc

/-- A 16/32-bit wide character, by its code unit. -/
abbrev wchar_t := Nat

/-- A `std::wstring`. -/
abbrev wstring := List wchar_t

/-- A `std::string` (bytes). -/
abbrev std_string := List Nat

/-- The code unit of `' '`. -/
def SPACE : wchar_t := ' '.toNat

/-- The ways in which a call can leave defined behaviour. -/
inductive Fault where
  /-- a read outside the bounds of `char_list` -/
  | out_of_bounds
  /-- a failed `assert` -/
  | assertion
  /-- an array `new` with a negative length -/
  | bad_array_new_length
deriving DecidableEq, Repr

deriving instance DecidableEq for Except

/-! ## ctc_vocabulary.h -/

/-- The three private fields of `class Vocabulary`. `char_list` is the heap
array allocated by the constructor; `char_to_label` is the
`std::unordered_map<wchar_t, int>`, kept as an association list with at most
one entry per key. -/
structure Vocabulary where
  size : Int
  char_list : List wchar_t
  char_to_label : List (wchar_t × Int)
deriving DecidableEq, Repr

/-- Read `arr[i]` of a C array; outside of the array the read is a fault. -/
def readAt (arr : List wchar_t) (i : Int) : Except Fault wchar_t :=
  if 0 ≤ i then
    match arr[i.toNat]? with
    | some c => .ok c
    | none => .error .out_of_bounds
  else .error .out_of_bounds

/-- Assignment `m[c] = i` on the map. -/
def mapAssign (m : List (wchar_t × Int)) (c : wchar_t) (i : Int) : List (wchar_t × Int) :=
  (c, i) :: m.filter (fun p => p.1 != c)

namespace Vocabulary

/-- The loop of both constructors,
`for (int i = 0; i < size; i++) { this->char_list[i] = char_list[i]; char_to_label[char_list[i]] = i; }`,
with `n` iterations left at index `i`. The destination array is written at
the consecutive indices `0, 1, ...`, so the write at index `i` appends. Reading
the source past its end is a fault. -/
def fill (src : List wchar_t) : Nat → Nat → Vocabulary → Except Fault Vocabulary
  | 0, _, v => .ok v
  | n + 1, i, v =>
    match src[i]? with
    | none => .error .out_of_bounds
    | some c =>
      fill src n (i + 1)
        { v with
          char_list := v.char_list ++ [c]
          char_to_label := mapAssign v.char_to_label c (i : Int) }

/-- `Vocabulary(const wchar_t *char_list, int size)`: the source array is the
list `char_list`. -/
def new (char_list : List wchar_t) (size : Int) : Except Fault Vocabulary :=
  if size < 0 then .error .bad_array_new_length
  else fill char_list size.toNat 0 { size := size, char_list := [], char_to_label := [] }

/-- `ReadFromFile(std::istream& is)`, which the constructor from a file path
runs: `all_symbols` is the first line of the file after the external
conversion `utf8::utf8to16`. -/
def ReadFromFile (all_symbols : wstring) : Except Fault Vocabulary :=
  fill all_symbols all_symbols.length 0
    { size := (all_symbols.length : Int), char_list := [], char_to_label := [] }

/-- `bool IsBlankLabel(int label) const { return label == size; }` -/
def IsBlankLabel (self : Vocabulary) (label : Int) : Bool :=
  label == self.size

/-- `bool IsSpaceLabel(int label) const { return char_list[label] == ' '; }` -/
def IsSpaceLabel (self : Vocabulary) (label : Int) : Except Fault Bool :=
  match readAt self.char_list label with
  | .ok c => .ok (c == SPACE)
  | .error e => .error e

/-- `wchar_t GetCharacterFromLabel(int label) const
  { assert(label < size); return char_list[label]; }` -/
def GetCharacterFromLabel (self : Vocabulary) (label : Int) : Except Fault wchar_t :=
  if label < self.size then readAt self.char_list label
  else .error .assertion

/-- `int GetLabelFromCharacter(wchar_t c) { return char_to_label[c]; }`:
`operator[]` of the map inserts a value-initialised entry (label 0) for an
absent key, so the method also returns the vocabulary after the call. -/
def GetLabelFromCharacter (self : Vocabulary) (c : wchar_t) : Int × Vocabulary :=
  match self.char_to_label.lookup c with
  | some l => (l, self)
  | none => (0, { self with char_to_label := self.char_to_label ++ [(c, 0)] })

/-- `int GetSize() const { return size; }` -/
def GetSize (self : Vocabulary) : Int := self.size

end Vocabulary

/-! ## External collaborators of the scorer -/

/-- A KenLM `lm::WordIndex`. -/
abbrev WordIndex := Nat

/-- The interface of the external n-gram model (`lm::ngram::ProbingModel`) that
the scorer and the tests use. `FullScore state word` returns the `prob` field
of the `FullScoreReturn` together with the `out` state. `Index`, `NotFound`
and `EndSentence` are the methods of `model->GetVocabulary()`. -/
structure Model (State : Type) where
  BeginSentenceState : State
  NullContextState : State
  FullScore : State → WordIndex → ℚ × State
  Index : std_string → WordIndex
  NotFound : WordIndex
  EndSentence : WordIndex

/-- Modelled from the spec: `ctc_trie_node.h` is not among the sources. The
scorer only calls `GetChildAt(label)` (a child, or absent) and
`GetMinUnigramScore()` (the cached score of the node) on a node. -/
structure TrieNodeOps (TrieNode : Type) where
  GetChildAt : TrieNode → Int → Option TrieNode
  GetMinUnigramScore : TrieNode → ℚ

/-- Modelled from the spec: `ctc_beam_entry.h` is not among the sources. The
six fields are those that `CopyState` and `InitializeState` assign. -/
structure KenLMBeamState (State TrieNode : Type) where
  language_model_score : ℚ
  score : ℚ
  delta_score : ℚ
  incomplete_word : wstring
  incomplete_word_trie_node : Option TrieNode
  model_state : State
deriving DecidableEq, Repr

/-! ## ctc_beam_scorer.h -/

/-- The private fields of `class KenLMBeamScorer`, followed by the two
collaborators its methods call into: the operations of the trie nodes and the
external conversion `utf8::utf16to8`, taken as a total function. -/
structure KenLMBeamScorer (State TrieNode : Type) where
  vocabulary : Vocabulary
  trieRoot : Option TrieNode
  model : Model State
  lm_weight : ℚ
  word_count_weight : ℚ
  valid_word_count_weight : ℚ
  trie : TrieNodeOps TrieNode
  utf16to8 : wstring → std_string

namespace KenLMBeamScorer

variable {State TrieNode : Type}

/-- `KenLMBeamScorer(const char *kenlm_directory_path)`: the member
initialiser list sets `lm_weight(1.0f)` and `word_count_weight(0.0f)`; the
body loads `model`, `vocabulary` and `trieRoot` from the directory, here the
arguments. No initialiser and no statement assigns
`valid_word_count_weight`: its value is indeterminate, the argument
`indeterminate`. -/
def new (model : Model State) (vocabulary : Vocabulary) (trieRoot : Option TrieNode)
    (trie : TrieNodeOps TrieNode) (utf16to8 : wstring → std_string) (indeterminate : ℚ) :
    KenLMBeamScorer State TrieNode :=
  { vocabulary := vocabulary
    trieRoot := trieRoot
    model := model
    lm_weight := 1
    word_count_weight := 0
    valid_word_count_weight := indeterminate
    trie := trie
    utf16to8 := utf16to8 }

/-- `SetLMWeight(float lm_weight)`. -/
def SetLMWeight (self : KenLMBeamScorer State TrieNode) (lm_weight : ℚ) :
    KenLMBeamScorer State TrieNode :=
  { self with lm_weight := lm_weight }

/-- `SetWordCountWeight(float word_count_weight)`. -/
def SetWordCountWeight (self : KenLMBeamScorer State TrieNode) (word_count_weight : ℚ) :
    KenLMBeamScorer State TrieNode :=
  { self with word_count_weight := word_count_weight }

/-- `SetValidWordCountWeight(float valid_word_count_weight)`. -/
def SetValidWordCountWeight (self : KenLMBeamScorer State TrieNode)
    (valid_word_count_weight : ℚ) : KenLMBeamScorer State TrieNode :=
  { self with valid_word_count_weight := valid_word_count_weight }

/-- `InitializeState(KenLMBeamState* root)`. -/
def InitializeState (self : KenLMBeamScorer State TrieNode)
    (root : KenLMBeamState State TrieNode) : KenLMBeamState State TrieNode :=
  { root with
    language_model_score := 0
    score := 0
    delta_score := 0
    incomplete_word := []
    incomplete_word_trie_node := self.trieRoot
    model_state := self.model.BeginSentenceState }

/-- `UpdateWithLMScore(KenLMBeamState *state, float lm_score_delta)`. -/
def UpdateWithLMScore (_self : KenLMBeamScorer State TrieNode)
    (state : KenLMBeamState State TrieNode) (lm_score_delta : ℚ) :
    KenLMBeamState State TrieNode :=
  let previous_score := state.score
  let state := { state with
    language_model_score := state.language_model_score + lm_score_delta }
  let state := { state with score := state.language_model_score }
  { state with delta_score := state.language_model_score - previous_score }

/-- `ResetIncompleteWord(KenLMBeamState *state)`. -/
def ResetIncompleteWord (self : KenLMBeamScorer State TrieNode)
    (state : KenLMBeamState State TrieNode) : KenLMBeamState State TrieNode :=
  { state with
    incomplete_word := []
    incomplete_word_trie_node := self.trieRoot }

/-- `IsOOV(const std::wstring& word)`. -/
def IsOOV (self : KenLMBeamScorer State TrieNode) (word : wstring) : Bool :=
  let encoded_word := self.utf16to8 word
  self.model.Index encoded_word == self.model.NotFound

/-- `ScoreIncompleteWord(model_state, word, out)`: the returned pair is the
result `full_score_return.prob` and the content written to `out`. -/
def ScoreIncompleteWord (self : KenLMBeamScorer State TrieNode)
    (model_state : State) (word : wstring) : ℚ × State :=
  let encoded_word := self.utf16to8 word
  let vocab := self.model.Index encoded_word
  self.model.FullScore model_state vocab

/-- `CopyState(const KenLMBeamState& from, KenLMBeamState* to)`. -/
def CopyState (_self : KenLMBeamScorer State TrieNode)
    (from_ : KenLMBeamState State TrieNode) (to_ : KenLMBeamState State TrieNode) :
    KenLMBeamState State TrieNode :=
  { to_ with
    language_model_score := from_.language_model_score
    score := from_.score
    delta_score := from_.delta_score
    incomplete_word := from_.incomplete_word
    incomplete_word_trie_node := from_.incomplete_word_trie_node
    model_state := from_.model_state }

/-- `ExpandState(from_state, from_label, to_state, to_label)`: `to_state` is
the previous content of the output state, the result is its new content. -/
def ExpandState (self : KenLMBeamScorer State TrieNode)
    (from_state : KenLMBeamState State TrieNode) (_from_label : Int)
    (to_state : KenLMBeamState State TrieNode) (to_label : Int) :
    Except Fault (KenLMBeamState State TrieNode) :=
  let to_state := self.CopyState from_state to_state
  match self.vocabulary.IsSpaceLabel to_label with
  | .error e => .error e
  | .ok false =>
    match self.vocabulary.GetCharacterFromLabel to_label with
    | .error e => .error e
    | .ok c =>
      let to_state := { to_state with incomplete_word := to_state.incomplete_word ++ [c] }
      -- If we have no valid prefix we assume a very low log probability
      let min_unigram_score : ℚ := -10
      let (to_state, min_unigram_score) :=
        match from_state.incomplete_word_trie_node with
        | some trie_node =>
          let trie_node := self.trie.GetChildAt trie_node to_label
          let to_state := { to_state with incomplete_word_trie_node := trie_node }
          match trie_node with
          | some child => (to_state, self.trie.GetMinUnigramScore child)
          | none => (to_state, min_unigram_score)
        | none => (to_state, min_unigram_score)
      let to_state := { to_state with
        score := min_unigram_score + to_state.language_model_score }
      .ok { to_state with delta_score := to_state.score - from_state.score }
  | .ok true =>
    let r := self.ScoreIncompleteWord from_state.model_state to_state.incomplete_word
    let lm_score_delta := r.1
    let to_state := { to_state with model_state := r.2 }
    -- Give fixed word bonus
    let to_state :=
      if !self.IsOOV to_state.incomplete_word then
        { to_state with
          language_model_score := to_state.language_model_score + self.valid_word_count_weight }
      else to_state
    let to_state := { to_state with
      language_model_score := to_state.language_model_score + self.word_count_weight }
    let to_state := self.UpdateWithLMScore to_state lm_score_delta
    .ok (self.ResetIncompleteWord to_state)

/-- `ExpandStateEnd(KenLMBeamState* state)`. -/
def ExpandStateEnd (self : KenLMBeamScorer State TrieNode)
    (state : KenLMBeamState State TrieNode) : KenLMBeamState State TrieNode :=
  let lm_score_delta : ℚ := 0
  let (state, lm_score_delta) :=
    if state.incomplete_word.length > 0 then
      let r := self.ScoreIncompleteWord state.model_state state.incomplete_word
      let state := self.ResetIncompleteWord state
      ({ state with model_state := r.2 }, lm_score_delta + r.1)
    else (state, lm_score_delta)
  let lm_score_delta := lm_score_delta +
    (self.model.FullScore state.model_state self.model.EndSentence).1
  self.UpdateWithLMScore state lm_score_delta

/-- `GetStateExpansionScore(state, previous_score)`. -/
def GetStateExpansionScore (self : KenLMBeamScorer State TrieNode)
    (state : KenLMBeamState State TrieNode) (previous_score : ℚ) : ℚ :=
  self.lm_weight * state.delta_score + previous_score

/-- `GetStateEndExpansionScore(state)`. -/
def GetStateEndExpansionScore (self : KenLMBeamScorer State TrieNode)
    (state : KenLMBeamState State TrieNode) : ℚ :=
  self.lm_weight * state.delta_score

end KenLMBeamScorer

/-! ## ctc_beam_search_kenlm_test.cc -/

variable {State TrieNode : Type}

/-- The loop of `ScoreBeam`. `from_state` and `to_state` are the two buffers
`states[i % 2]` and `states[(i + 1) % 2]`, which swap roles at every
iteration; the result is the buffer that holds the last expansion, and the
accumulated `score`. The `EXPECT_NEAR` checks do not change the state. -/
def ScoreBeamLoop (scorer : KenLMBeamScorer State TrieNode) :
    List Int → KenLMBeamState State TrieNode → KenLMBeamState State TrieNode → Int → ℚ →
    Except Fault (KenLMBeamState State TrieNode × ℚ)
  | [], from_state, _, _, score => .ok (from_state, score)
  | to_label :: labels, from_state, to_state, from_label, score =>
    match scorer.ExpandState from_state from_label to_state to_label with
    | .error e => .error e
    | .ok to_state =>
      let new_score := scorer.GetStateExpansionScore to_state score
      ScoreBeamLoop scorer labels to_state from_state to_label new_score

/-- `float ScoreBeam(scorer, labels, label_count)`; `states0` and `states1` are
the contents of the two default-constructed `states` before the call. -/
def ScoreBeam (scorer : KenLMBeamScorer State TrieNode) (labels : List Int)
    (states0 states1 : KenLMBeamState State TrieNode) : Except Fault ℚ :=
  match ScoreBeamLoop scorer labels (scorer.InitializeState states0) states1 (-1) 0 with
  | .error e => .error e
  | .ok (endState, score) =>
    let endState := scorer.ExpandStateEnd endState
    .ok (score + scorer.GetStateEndExpansionScore endState)

/-- The direct scoring of a word sequence that `TEST(KenLMBeamSearch, KenLMModel)`
performs for four words: one `FullScore` per word index, each from the context
that the previous call returned, and a last one for `EndSentence()`. -/
def directScore (model : Model State) : State → List WordIndex → ℚ
  | context, [] => (model.FullScore context model.EndSentence).1
  | context, w :: ws =>
    (model.FullScore context w).1 + directScore model (model.FullScore context w).2 ws

/-! ## Auxiliary notions used to state the properties -/

/-- The states that the decoder can hold: the result of `InitializeState`, and
every result of a call of `ExpandState` on such a state. -/
inductive Reachable (scorer : KenLMBeamScorer State TrieNode) :
    KenLMBeamState State TrieNode → Prop
  | init (root : KenLMBeamState State TrieNode) :
      Reachable scorer (scorer.InitializeState root)
  | expand {from_state : KenLMBeamState State TrieNode} (from_label : Int)
      (to_state : KenLMBeamState State TrieNode) (to_label : Int)
      {result : KenLMBeamState State TrieNode} :
      Reachable scorer from_state →
      scorer.ExpandState from_state from_label to_state to_label = .ok result →
      Reachable scorer result

/-- One step down the trie from a cursor that may be null. -/
def descendStep (scorer : KenLMBeamScorer State TrieNode)
    (cursor : Option TrieNode) (label : Int) : Option TrieNode :=
  match cursor with
  | some node => scorer.trie.GetChildAt node label
  | none => none

/-- Descent from a cursor along a list of labels. -/
def descend (scorer : KenLMBeamScorer State TrieNode)
    (cursor : Option TrieNode) (labels : List Int) : Option TrieNode :=
  labels.foldl (descendStep scorer) cursor

/-- The labels expanded since the last space label, when `current` are those
before `labels` is processed. -/
def labelsSinceSpaceFrom (v : Vocabulary) (current : List Int) (labels : List Int) : List Int :=
  labels.foldl (fun acc l => if v.IsSpaceLabel l = .ok true then [] else acc ++ [l]) current

/-- The labels of a path that come after its last space label. -/
def labelsSinceSpace (v : Vocabulary) (labels : List Int) : List Int :=
  labelsSinceSpaceFrom v [] labels

/-- The label path of a list of words: the labels of the words, with one
space label between two consecutive words. -/
def labelPath (space : Int) : List (List Int) → List Int
  | [] => []
  | [w] => w
  | w :: w' :: ws => w ++ space :: labelPath space (w' :: ws)

/-- The characters that a list of labels spells. -/
def spell (v : Vocabulary) (labels : List Int) : wstring :=
  labels.map (fun l => v.char_list.getD l.toNat 0)

/-- The estimate that the non-space branch of `ExpandState` adds to the
language model score: the cached score of the child, or `-10.0`. -/
def prefixEstimate (scorer : KenLMBeamScorer State TrieNode)
    (cursor : Option TrieNode) (label : Int) : ℚ :=
  match cursor with
  | some node =>
    match scorer.trie.GetChildAt node label with
    | some child => scorer.trie.GetMinUnigramScore child
    | none => -10
  | none => -10

/-- The language model score that the space branch of `ExpandState` computes,
with the additions in the order of the code. -/
def closedScore (scorer : KenLMBeamScorer State TrieNode)
    (from_state : KenLMBeamState State TrieNode) : ℚ :=
  (if scorer.IsOOV from_state.incomplete_word then from_state.language_model_score
   else from_state.language_model_score + scorer.valid_word_count_weight)
  + scorer.word_count_weight
  + (scorer.ScoreIncompleteWord from_state.model_state from_state.incomplete_word).1

/-! ## A small concrete scorer

Alphabet `a`, `b`, space (labels 0, 1, 2; the blank label is 3). The model
knows the words `ab` (index 1) and `b` (index 2); index 0 is the not-found
index and index 3 the end of sentence. A context is the list of the word
indices scored so far, most recent first. The trie holds the prefixes `a`,
`ab` and `b` as the nodes 1, 2 and 3 under the root 0. -/

/-- The model of the concrete scorer. -/
def exampleModel : Model (List WordIndex) where
  BeginSentenceState := []
  NullContextState := []
  FullScore := fun context w => (if w = 0 then -5 else -1 - (context.length : ℚ), w :: context)
  Index := fun bytes => if bytes = [97, 98] then 1 else if bytes = [98] then 2 else 0
  NotFound := 0
  EndSentence := 3

/-- The trie of the concrete scorer. -/
def exampleTrie : TrieNodeOps Nat where
  GetChildAt := fun node label =>
    if node = 0 ∧ label = 0 then some 1
    else if node = 1 ∧ label = 1 then some 2
    else if node = 0 ∧ label = 1 then some 3
    else none
  GetMinUnigramScore := fun node => -(node : ℚ)

/-- The concrete scorer, for given weights. -/
def exampleScorer (lm_weight word_count_weight valid_word_count_weight : ℚ) :
    KenLMBeamScorer (List WordIndex) Nat where
  vocabulary := { size := 3, char_list := [97, 98, 32], char_to_label := [(32, 2), (98, 1), (97, 0)] }
  trieRoot := some 0
  model := exampleModel
  lm_weight := lm_weight
  word_count_weight := word_count_weight
  valid_word_count_weight := valid_word_count_weight
  trie := exampleTrie
  utf16to8 := fun word => word

/-- Some previous content of a state buffer. -/
def staleState : KenLMBeamState (List WordIndex) Nat :=
  { language_model_score := 7, score := 8, delta_score := 9, incomplete_word := [120]
    incomplete_word_trie_node := some 5, model_state := [4] }

/-- A state of the concrete scorer in the middle of the word `ab`, after the
prefix `a`. -/
def stateAfterA : KenLMBeamState (List WordIndex) Nat :=
  { language_model_score := 1, score := 0, delta_score := -1, incomplete_word := [97]
    incomplete_word_trie_node := some 1, model_state := [] }

/-- The state of the concrete scorer, for any weights, after `InitializeState`
and the expansion by the label of `b`. -/
def stateAfterB : KenLMBeamState (List WordIndex) Nat :=
  { language_model_score := 0, score := -3, delta_score := -3, incomplete_word := [98]
    incomplete_word_trie_node := some 3, model_state := [] }

/-- The state of the concrete scorer (word bonus 3, valid-word bonus 4) after
`InitializeState` and the expansions by the label of `b` and the space label. -/
def stateAfterBSpace : KenLMBeamState (List WordIndex) Nat :=
  { language_model_score := 6, score := 6, delta_score := 9, incomplete_word := []
    incomplete_word_trie_node := some 0, model_state := [2] }

/-- The state of the concrete scorer with `lm_weight` 1 and both bonuses 0
after `InitializeState` and the expansions by the label of `b` and the space
label. -/
def plainAfterBSpace : KenLMBeamState (List WordIndex) Nat :=
  { language_model_score := -1, score := -1, delta_score := 2, incomplete_word := []
    incomplete_word_trie_node := some 0, model_state := [2] }

/-- The state that `ExpandState` with the space label makes of `plainAfterBSpace`. -/
def plainAfterBSpaceSpace : KenLMBeamState (List WordIndex) Nat :=
  { language_model_score := -6, score := -6, delta_score := -5, incomplete_word := []
    incomplete_word_trie_node := some 0, model_state := [0, 2] }

/-- The concrete scorer as its constructor leaves it, when the memory of the
member `valid_word_count_weight` holds `indeterminate`. -/
def freshScorer (indeterminate : ℚ) : KenLMBeamScorer (List WordIndex) Nat :=
  KenLMBeamScorer.new exampleModel (exampleScorer 1 0 0).vocabulary (some 0) exampleTrie
    (fun word => word) indeterminate

/-- The context that the model returns after scoring a list of word indices
from `context`, each in the context returned by the previous call. -/
def contextAfter (model : Model State) : State → List WordIndex → State
  | context, [] => context
  | context, w :: ws => contextAfter model (model.FullScore context w).2 ws

/-- A second model over the same words as `exampleModel`: an unknown word has
log-probability -1 and a known word -4 in every context; the end of sentence
has -1 after an unknown word and -10 otherwise. -/
def skewedModel : Model (List WordIndex) where
  BeginSentenceState := []
  NullContextState := []
  FullScore := fun context w =>
    (if w = 3 then (if context.head? = some 0 then -1 else -10)
     else if w = 0 then -1 else -4, w :: context)
  Index := fun bytes => if bytes = [97, 98] then 1 else if bytes = [98] then 2 else 0
  NotFound := 0
  EndSentence := 3

/-- The concrete scorer with `lm_weight` 1 and both bonuses 0, over `skewedModel`. -/
def skewedScorer : KenLMBeamScorer (List WordIndex) Nat :=
  { exampleScorer 1 0 0 with model := skewedModel }

/-! ## The data of the tests -/

/-- The alphabet of the tests, `abcdefghijklmnopqrstuvwxyz' `, by code units. -/
def testAlphabet : wstring :=
  [
    97, 98, 99, 100, 101, 102, 103, 104, 105, 106, 107, 108, 109, 110, 111, 112, 113,
    114, 115, 116, 117, 118, 119, 120, 121, 122, 39, 32
  ]

/-- The vocabulary that the constructors build from `testAlphabet` (28 labels). -/
def testVocabulary : Vocabulary where
  size := 28
  char_list := testAlphabet
  char_to_label :=
    [
      (32, 27), (39, 26), (122, 25), (121, 24), (120, 23), (119, 22), (118, 21),
      (117, 20), (116, 19), (115, 18), (114, 17), (113, 16), (112, 15), (111, 14),
      (110, 13), (109, 12), (108, 11), (107, 10), (106, 9), (105, 8), (104, 7),
      (103, 6), (102, 5), (101, 4), (100, 3), (99, 2), (98, 1), (97, 0)
    ]

/-- `const int test_labels[]`, the input path for `tomorrow it will rain`
(`test_labels_count = 108`). -/
def test_labels : List Int :=
  [
    19, 19, 19, 19, 28, 28, 14, 28, 28, 12, 12, 12, 28, 14, 14, 14, 14, 28, 28, 17, 17,
    28, 28, 28, 17, 17, 17, 17, 28, 14, 14, 14, 28, 28, 28, 28, 22, 22, 22, 22, 28, 28,
    28, 27, 27, 27, 27, 28, 28, 28, 28, 8, 8, 28, 28, 28, 19, 19, 19, 28, 28, 28, 27,
    28, 22, 22, 22, 28, 28, 28, 8, 28, 28, 28, 11, 11, 11, 11, 28, 11, 11, 28, 28, 27,
    27, 27, 28, 28, 17, 28, 28, 28, 28, 0, 0, 28, 28, 28, 8, 8, 28, 28, 28, 13, 13, 13,
    13, 28
  ]

/-- A scorer over the vocabulary of the tests; the model and the trie are
those of the concrete scorer. -/
def testScorer : KenLMBeamScorer (List WordIndex) Nat :=
  { exampleScorer 1 0 0 with vocabulary := testVocabulary }

/-! ## ctc_trie_node.h and ctc_generate_trie.cc -/

/-- Modelled from the spec: the class `TrieNode` of `ctc_trie_node.h`, which
is not among the sources. A node has its cached score `minUnigramScore` and
`children[N]`, one slot per label, each absent or an owned child; the slots
that hold a child are kept as an association list from the label to the
child, with at most one entry per label. -/
inductive TrieNodeObj where
  | mk (minUnigramScore : ℚ) (children : List (Int × TrieNodeObj))

/-- Modelled from the spec: what the contract of `Insert` leaves open, namely
the aggregation rule of the cached score and whether the nodes before the
terminal node are updated. `initial` is the cached score of a created node;
`incorporate terminal score unigramScore` is the new cached score of a node
on the path of an insertion, where `terminal` tells the terminal node. -/
structure AggregationPolicy where
  initial : ℚ
  incorporate : Bool → ℚ → ℚ → ℚ

namespace TrieNodeObj

/-- Modelled from the spec: the constructor call `TrieNode root(vocabulary.GetSize())`
of the tool makes a node without children. -/
def fresh (policy : AggregationPolicy) : TrieNodeObj :=
  mk policy.initial []

/-- Modelled from the spec: `Score() -> float`. -/
def Score : TrieNodeObj → ℚ
  | mk minUnigramScore _ => minUnigramScore

/-- Modelled from the spec: `ChildAt(label) -> node or absent`. -/
def ChildAt : TrieNodeObj → Int → Option TrieNodeObj
  | mk _ children, label => children.lookup label

/-- Modelled from the spec: `Insert(word, labelMapper, wordIndex, unigramScore)`
"walks/creates one child per character, threading through `labelMapper` to
resolve each character to a label", and updates the cached score along the
path by the aggregation policy. `labelMapper` may change a state of type
`S` at each call, so the state is passed along and returned; `N` is the
number of slots of every node, and a label without a slot is a fault. -/
def Insert {S : Type} (N : Int) (policy : AggregationPolicy)
    (labelMapper : S → wchar_t → Int × S) :
    List wchar_t → WordIndex → ℚ → TrieNodeObj → S → Except Fault (TrieNodeObj × S)
  | [], _, unigramScore, mk score children, s =>
    .ok (mk (policy.incorporate true score unigramScore) children, s)
  | c :: word, wordIndex, unigramScore, mk score children, s =>
    let r := labelMapper s c
    if 0 ≤ r.1 ∧ r.1 < N then
      let child := (children.lookup r.1).getD (fresh policy)
      match Insert N policy labelMapper word wordIndex unigramScore child r.2 with
      | .error e => .error e
      | .ok (child', s') =>
        .ok (mk (policy.incorporate false score unigramScore)
          ((r.1, child') :: children.filter (fun p => p.1 != r.1)), s')
    else .error .out_of_bounds

/-- Descent from a node along a list of labels by `ChildAt`. -/
def descendObj : TrieNodeObj → List Int → Option TrieNodeObj
  | node, [] => some node
  | node, label :: labels =>
    match node.ChildAt label with
    | some child => descendObj child labels
    | none => none

end TrieNodeObj

/-- `lm::WordIndex GetWordIndex(const Model& model, const std::string& word)`. -/
def GetWordIndex (model : Model State) (word : std_string) : WordIndex :=
  let vocab := model.Index word
  vocab

/-- `float ScoreWord(const Model& model, lm::WordIndex vocab)`. -/
def ScoreWord (model : Model State) (vocab : WordIndex) : ℚ :=
  let in_state := model.NullContextState
  (model.FullScore in_state vocab).1

/-- The body of the loop `while (std::cin >> word)` of `main` in
`ctc_generate_trie.cc`: `root` and `vocabulary` are the trie and the
vocabulary before the iteration, the result holds them after it. The external
conversion `utf8::utf8to16` is an argument, and so is the aggregation policy
of the trie. The label mapper is the lambda of the source,
`[&vocabulary](wchar_t c) { return vocabulary.GetLabelFromCharacter(c); }`. -/
def insertWord (model : Model State) (utf8to16 : std_string → wstring)
    (policy : AggregationPolicy) (root : TrieNodeObj) (vocabulary : Vocabulary)
    (word : std_string) : Except Fault (TrieNodeObj × Vocabulary) :=
  let vocab := GetWordIndex model word
  let unigram_score := ScoreWord model vocab
  let wide_word := utf8to16 word
  root.Insert vocabulary.GetSize policy
    (fun (vocabulary : Vocabulary) (c : wchar_t) => vocabulary.GetLabelFromCharacter c)
    wide_word vocab unigram_score vocabulary

/-- The labels that the label mapper of the tool returns for the characters
of a word, in the order of the word, and the vocabulary after these calls. -/
def labelsOfWord : Vocabulary → List wchar_t → List Int × Vocabulary
  | v, [] => ([], v)
  | v, c :: word =>
    ((v.GetLabelFromCharacter c).1 :: (labelsOfWord (v.GetLabelFromCharacter c).2 word).1,
      (labelsOfWord (v.GetLabelFromCharacter c).2 word).2)

/-- The entry of `u` in the map is absent or holds the label 0. -/
def zeroOrAbsent (u : wchar_t) (v : Vocabulary) : Prop :=
  v.char_to_label.lookup u = none ∨ v.char_to_label.lookup u = some 0

/-- Every label that the map holds is a label of `[0, N)`. -/
def labelsInRange (N : Int) (v : Vocabulary) : Prop :=
  ∀ c l, v.char_to_label.lookup c = some l → 0 ≤ l ∧ l < N

/-- An aggregation policy for the concrete examples: created nodes have score
0 and every node of the path takes the minimum. -/
def minPolicy : AggregationPolicy where
  initial := 0
  incorporate := fun _ score unigramScore => min score unigramScore

/-! ## Binary32 addition and the order of the additions

The scores of the source are `float`. Every finite binary32 value is an
integer multiple of `2^-149`; here it is that integer. Where the order of the
additions of the code matters, the additions are made with `add32`. -/

/-- The additions of the space branch of `ExpandState`, in the order of the
code, for an addition `add` of the score type:
`if (!IsOOV(..)) language_model_score += valid_word_count_weight;`,
`language_model_score += word_count_weight;` and, in `UpdateWithLMScore`,
`language_model_score += lm_score_delta;`. -/
def spaceBranchSum {F : Type} (add : F → F → F)
    (language_model_score valid_word_count_weight word_count_weight lm_score_delta : F)
    (isOOV : Bool) : F :=
  let language_model_score :=
    if !isOOV then add language_model_score valid_word_count_weight
    else language_model_score
  let language_model_score := add language_model_score word_count_weight
  add language_model_score lm_score_delta

/-- The loop `while (std::cin >> word)` of `main` in `ctc_generate_trie.cc`,
for the words read from the standard input, from the trie `root` and the
vocabulary `vocabulary`. -/
def generateTrie (model : Model State) (utf8to16 : std_string → wstring)
    (policy : AggregationPolicy) :
    List std_string → TrieNodeObj → Vocabulary → Except Fault (TrieNodeObj × Vocabulary)
  | [], root, vocabulary => .ok (root, vocabulary)
  | word :: words, root, vocabulary =>
    match insertWord model utf8to16 policy root vocabulary word with
    | .error e => .error e
    | .ok (root', vocabulary') => generateTrie model utf8to16 policy words root' vocabulary'

/-- What holds of the vocabulary of the trie-build tool at every iteration of
its loop, for a character `u` that is not in the alphabet: the character
array is the one that the constructor made, the labels of the map are labels
of `[0, N)`, and the entry of `u` is absent or holds the label 0. -/
def toolInvariant (char_list : List wchar_t) (size : Int) (u : wchar_t) (v : Vocabulary) : Prop :=
  labelsInRange size v ∧ zeroOrAbsent u v ∧ v.size = size ∧
    v.char_list = char_list.take size.toNat

/-! ## Basic facts about the vocabulary and the two branches of `ExpandState` -/

theorem readAt_in_range {arr : List wchar_t} {i : Int} (h0 : 0 ≤ i)
    (h1 : i < (arr.length : Int)) : readAt arr i = .ok (arr.getD i.toNat 0) := by
  have hlt : i.toNat < arr.length := by omega
  simp [readAt, h0, List.getElem?_eq_getElem hlt, List.getD_eq_getElem?_getD]

theorem IsSpaceLabel_in_range {v : Vocabulary} {l : Int}
    (hwf : (v.char_list.length : Int) = v.size) (h0 : 0 ≤ l) (hN : l < v.size) :
    v.IsSpaceLabel l = .ok (v.char_list.getD l.toNat 0 == SPACE) := by
  simp [Vocabulary.IsSpaceLabel, readAt_in_range h0 (hwf ▸ hN)]

theorem GetCharacterFromLabel_in_range {v : Vocabulary} {l : Int}
    (hwf : (v.char_list.length : Int) = v.size) (h0 : 0 ≤ l) (hN : l < v.size) :
    v.GetCharacterFromLabel l = .ok (v.char_list.getD l.toNat 0) := by
  simp [Vocabulary.GetCharacterFromLabel, hN, readAt_in_range h0 (hwf ▸ hN)]

theorem Vocabulary.fill_length (src : List wchar_t) (n : Nat) :
    ∀ (i : Nat) (v v' : Vocabulary), Vocabulary.fill src n i v = .ok v' →
      v'.char_list.length = v.char_list.length + n ∧ v'.size = v.size := by
  induction n with
  | zero =>
    intro i v v' h
    simp only [Vocabulary.fill] at h
    cases h
    exact ⟨rfl, rfl⟩
  | succ n ih =>
    intro i v v' h
    cases hsrc : src[i]? with
    | none => simp [Vocabulary.fill, hsrc] at h
    | some c =>
      simp only [Vocabulary.fill, hsrc] at h
      obtain ⟨hlen, hsize⟩ := ih _ _ _ h
      refine ⟨?_, hsize⟩
      rw [hlen]
      simp
      omega

/-- The vocabularies that the constructor builds have `size` characters. -/
theorem Vocabulary.new_well_formed (char_list : List wchar_t) (size : Int) (v : Vocabulary)
    (h : Vocabulary.new char_list size = .ok v) :
    (v.char_list.length : Int) = v.size ∧ v.size = size := by
  unfold Vocabulary.new at h
  by_cases hneg : size < 0
  · simp [hneg] at h
  · simp only [hneg, if_false] at h
    obtain ⟨hlen, hsize⟩ := Vocabulary.fill_length _ _ _ _ _ h
    simp only [List.length_nil, zero_add] at hlen
    simp only at hsize
    refine ⟨?_, hsize⟩
    rw [hlen, hsize]
    omega

section branches

variable (scorer : KenLMBeamScorer State TrieNode)

theorem ExpandState_space (from_state to_state : KenLMBeamState State TrieNode)
    (from_label to_label : Int) (h : scorer.vocabulary.IsSpaceLabel to_label = .ok true) :
    scorer.ExpandState from_state from_label to_state to_label = .ok
      { language_model_score := closedScore scorer from_state
        score := closedScore scorer from_state
        delta_score := closedScore scorer from_state - from_state.score
        incomplete_word := []
        incomplete_word_trie_node := scorer.trieRoot
        model_state :=
          (scorer.ScoreIncompleteWord from_state.model_state from_state.incomplete_word).2 } := by
  unfold KenLMBeamScorer.ExpandState
  simp only [h, KenLMBeamScorer.CopyState, KenLMBeamScorer.UpdateWithLMScore,
    KenLMBeamScorer.ResetIncompleteWord, closedScore]
  cases scorer.IsOOV from_state.incomplete_word <;> simp

theorem ExpandState_char (from_state to_state : KenLMBeamState State TrieNode)
    (from_label to_label : Int) (c : wchar_t)
    (h : scorer.vocabulary.IsSpaceLabel to_label = .ok false)
    (hc : scorer.vocabulary.GetCharacterFromLabel to_label = .ok c) :
    scorer.ExpandState from_state from_label to_state to_label = .ok
      { language_model_score := from_state.language_model_score
        score := prefixEstimate scorer from_state.incomplete_word_trie_node to_label
          + from_state.language_model_score
        delta_score := prefixEstimate scorer from_state.incomplete_word_trie_node to_label
          + from_state.language_model_score - from_state.score
        incomplete_word := from_state.incomplete_word ++ [c]
        incomplete_word_trie_node :=
          descendStep scorer from_state.incomplete_word_trie_node to_label
        model_state := from_state.model_state } := by
  unfold KenLMBeamScorer.ExpandState
  simp only [h, hc, KenLMBeamScorer.CopyState, prefixEstimate, descendStep]
  cases from_state.incomplete_word_trie_node with
  | none => simp
  | some node =>
    simp only
    cases scorer.trie.GetChildAt node to_label <;> simp

theorem ExpandStateEnd_nonempty (state : KenLMBeamState State TrieNode)
    (h : state.incomplete_word ≠ []) :
    scorer.ExpandStateEnd state =
      { language_model_score := state.language_model_score +
          ((scorer.ScoreIncompleteWord state.model_state state.incomplete_word).1 +
            (scorer.model.FullScore
              (scorer.ScoreIncompleteWord state.model_state state.incomplete_word).2
              scorer.model.EndSentence).1)
        score := state.language_model_score +
          ((scorer.ScoreIncompleteWord state.model_state state.incomplete_word).1 +
            (scorer.model.FullScore
              (scorer.ScoreIncompleteWord state.model_state state.incomplete_word).2
              scorer.model.EndSentence).1)
        delta_score := state.language_model_score +
          ((scorer.ScoreIncompleteWord state.model_state state.incomplete_word).1 +
            (scorer.model.FullScore
              (scorer.ScoreIncompleteWord state.model_state state.incomplete_word).2
              scorer.model.EndSentence).1) - state.score
        incomplete_word := []
        incomplete_word_trie_node := scorer.trieRoot
        model_state := (scorer.ScoreIncompleteWord state.model_state state.incomplete_word).2 } := by
  have hpos : state.incomplete_word.length > 0 := List.length_pos.mpr h
  unfold KenLMBeamScorer.ExpandStateEnd
  simp [hpos, KenLMBeamScorer.UpdateWithLMScore, KenLMBeamScorer.ResetIncompleteWord]

theorem ExpandStateEnd_empty (state : KenLMBeamState State TrieNode)
    (h : state.incomplete_word = []) :
    scorer.ExpandStateEnd state =
      { language_model_score := state.language_model_score +
          (scorer.model.FullScore state.model_state scorer.model.EndSentence).1
        score := state.language_model_score +
          (scorer.model.FullScore state.model_state scorer.model.EndSentence).1
        delta_score := state.language_model_score +
          (scorer.model.FullScore state.model_state scorer.model.EndSentence).1 - state.score
        incomplete_word := state.incomplete_word
        incomplete_word_trie_node := state.incomplete_word_trie_node
        model_state := state.model_state } := by
  unfold KenLMBeamScorer.ExpandStateEnd
  simp [h, KenLMBeamScorer.UpdateWithLMScore]

theorem ExpandStateEnd_score (state : KenLMBeamState State TrieNode) :
    (scorer.ExpandStateEnd state).score = (scorer.ExpandStateEnd state).language_model_score ∧
    (scorer.ExpandStateEnd state).delta_score =
      (scorer.ExpandStateEnd state).language_model_score - state.score := by
  by_cases h : state.incomplete_word = []
  · rw [ExpandStateEnd_empty scorer state h]; simp
  · rw [ExpandStateEnd_nonempty scorer state h]; simp

theorem ExpandState_in_range (hwf : (scorer.vocabulary.char_list.length : Int) = scorer.vocabulary.size)
    (from_state to_state : KenLMBeamState State TrieNode) (from_label to_label : Int)
    (h0 : 0 ≤ to_label) (hN : to_label < scorer.vocabulary.size) :
    ∃ result, scorer.ExpandState from_state from_label to_state to_label = .ok result := by
  have hs := IsSpaceLabel_in_range hwf h0 hN
  have hc := GetCharacterFromLabel_in_range hwf h0 hN
  cases hb : (scorer.vocabulary.char_list.getD to_label.toNat 0 == SPACE) with
  | true =>
    rw [hb] at hs
    exact ⟨_, ExpandState_space scorer from_state to_state from_label to_label hs⟩
  | false =>
    rw [hb] at hs
    exact ⟨_, ExpandState_char scorer from_state to_state from_label to_label _ hs hc⟩

theorem ExpandState_ok_cases {from_state to_state result : KenLMBeamState State TrieNode}
    {from_label to_label : Int}
    (h : scorer.ExpandState from_state from_label to_state to_label = .ok result) :
    scorer.vocabulary.IsSpaceLabel to_label = .ok true ∨
    (scorer.vocabulary.IsSpaceLabel to_label = .ok false ∧
      ∃ c, scorer.vocabulary.GetCharacterFromLabel to_label = .ok c) := by
  cases hs : scorer.vocabulary.IsSpaceLabel to_label with
  | error e =>
    unfold KenLMBeamScorer.ExpandState at h
    simp only [hs] at h
    cases h
  | ok b =>
    cases b with
    | true => exact Or.inl rfl
    | false =>
      cases hc : scorer.vocabulary.GetCharacterFromLabel to_label with
      | error e =>
        unfold KenLMBeamScorer.ExpandState at h
        simp only [hs, hc] at h
        cases h
      | ok c => exact Or.inr ⟨rfl, c, rfl⟩

theorem ExpandState_delta_score {from_state to_state result : KenLMBeamState State TrieNode}
    {from_label to_label : Int}
    (h : scorer.ExpandState from_state from_label to_state to_label = .ok result) :
    result.delta_score = result.score - from_state.score := by
  rcases ExpandState_ok_cases scorer h with hs | ⟨hs, c, hc⟩
  · rw [ExpandState_space scorer from_state to_state from_label to_label hs] at h
    cases h; rfl
  · rw [ExpandState_char scorer from_state to_state from_label to_label c hs hc] at h
    cases h; rfl

theorem ExpandState_word_boundary {from_state to_state result : KenLMBeamState State TrieNode}
    {from_label to_label : Int}
    (h : scorer.ExpandState from_state from_label to_state to_label = .ok result)
    (hw : result.incomplete_word = []) : result.score = result.language_model_score := by
  rcases ExpandState_ok_cases scorer h with hs | ⟨hs, c, hc⟩
  · rw [ExpandState_space scorer from_state to_state from_label to_label hs] at h
    cases h; rfl
  · rw [ExpandState_char scorer from_state to_state from_label to_label c hs hc] at h
    cases h
    simp at hw

theorem exampleScorer_expand_b (lm wc vwc : ℚ) :
    (exampleScorer lm wc vwc).ExpandState ((exampleScorer lm wc vwc).InitializeState staleState)
      (-1) staleState 1 = .ok stateAfterB := by
  rw [ExpandState_char (exampleScorer lm wc vwc) _ staleState (-1) 1 98 rfl rfl]
  simp [KenLMBeamScorer.InitializeState, exampleScorer, exampleTrie, exampleModel,
    prefixEstimate, descendStep, stateAfterB]

theorem exampleScorer_plain_expand_b_space :
    (exampleScorer 1 0 0).ExpandState stateAfterB 1 staleState 2 = .ok plainAfterBSpace := by
  rw [ExpandState_space _ _ _ _ _ (by decide)]
  simp [exampleScorer, exampleModel, closedScore, KenLMBeamScorer.IsOOV,
    KenLMBeamScorer.ScoreIncompleteWord, stateAfterB, plainAfterBSpace]
  norm_num

theorem exampleScorer_plain_expand_b_space_space :
    (exampleScorer 1 0 0).ExpandState plainAfterBSpace 2 stateAfterB 2 =
      .ok plainAfterBSpaceSpace := by
  rw [ExpandState_space _ _ _ _ _ (by decide)]
  simp [exampleScorer, exampleModel, closedScore, KenLMBeamScorer.IsOOV,
    KenLMBeamScorer.ScoreIncompleteWord, plainAfterBSpace, plainAfterBSpaceSpace]
  norm_num

theorem exampleScorer_expand_b_space :
    (exampleScorer 2 3 4).ExpandState stateAfterB 1 staleState 2 = .ok stateAfterBSpace := by
  rw [ExpandState_space _ _ _ _ _ (by decide)]
  simp [exampleScorer, exampleModel, closedScore, KenLMBeamScorer.IsOOV,
    KenLMBeamScorer.ScoreIncompleteWord, stateAfterB, stateAfterBSpace]
  norm_num

end branches

/-! ## The loop of `ScoreBeam` -/

section loop

variable (scorer : KenLMBeamScorer State TrieNode)

theorem ExpandState_independent (from_state to_state to_state' : KenLMBeamState State TrieNode)
    (from_label from_label' to_label : Int) :
    scorer.ExpandState from_state from_label to_state to_label =
      scorer.ExpandState from_state from_label' to_state' to_label := by
  unfold KenLMBeamScorer.ExpandState
  rfl

theorem ScoreBeamLoop_independent (labels : List Int) :
    ∀ (from_state to_state to_state' : KenLMBeamState State TrieNode)
      (from_label from_label' : Int) (score : ℚ),
      ScoreBeamLoop scorer labels from_state to_state from_label score =
        ScoreBeamLoop scorer labels from_state to_state' from_label' score := by
  induction labels with
  | nil => intros; rfl
  | cons l ls ih =>
    intro f t t' fl fl' score
    simp only [ScoreBeamLoop]
    rw [ExpandState_independent scorer f t t' fl fl' l]

theorem ScoreBeamLoop_cons_ok {l : Int} {ls : List Int}
    {f t r : KenLMBeamState State TrieNode} {fl : Int} {score : ℚ}
    (h : scorer.ExpandState f fl t l = .ok r) :
    ScoreBeamLoop scorer (l :: ls) f t fl score =
      ScoreBeamLoop scorer ls r t fl (scorer.GetStateExpansionScore r score) := by
  simp only [ScoreBeamLoop, h]
  exact ScoreBeamLoop_independent scorer ls r f t l fl _

theorem ScoreBeamLoop_append (xs ys : List Int) :
    ∀ (f t : KenLMBeamState State TrieNode) (fl : Int) (score : ℚ)
      (st : KenLMBeamState State TrieNode) (acc : ℚ),
      ScoreBeamLoop scorer xs f t fl score = .ok (st, acc) →
      ScoreBeamLoop scorer (xs ++ ys) f t fl score = ScoreBeamLoop scorer ys st t fl acc := by
  induction xs with
  | nil =>
    intro f t fl score st acc h
    simp only [ScoreBeamLoop] at h
    cases h
    rfl
  | cons l ls ih =>
    intro f t fl score st acc h
    cases hexp : scorer.ExpandState f fl t l with
    | error e => simp [ScoreBeamLoop, hexp] at h
    | ok r =>
      rw [ScoreBeamLoop_cons_ok scorer hexp] at h
      rw [List.cons_append, ScoreBeamLoop_cons_ok scorer hexp]
      exact ih r t fl _ st acc h

theorem ScoreBeamLoop_in_range
    (hwf : (scorer.vocabulary.char_list.length : Int) = scorer.vocabulary.size)
    (labels : List Int) :
    ∀ (f t : KenLMBeamState State TrieNode) (fl : Int) (score : ℚ),
      (∀ l ∈ labels, 0 ≤ l ∧ l < scorer.vocabulary.size) →
      ∃ st acc, ScoreBeamLoop scorer labels f t fl score = .ok (st, acc) := by
  induction labels with
  | nil => intro f t fl score _; exact ⟨f, score, rfl⟩
  | cons l ls ih =>
    intro f t fl score hl
    obtain ⟨r, hr⟩ := ExpandState_in_range scorer hwf f t fl l
      (hl l (List.mem_cons_self _ _)).1 (hl l (List.mem_cons_self _ _)).2
    rw [ScoreBeamLoop_cons_ok scorer hr]
    exact ih r t fl _ (fun x hx => hl x (List.mem_cons_of_mem _ hx))

theorem ScoreBeamLoop_telescope (labels : List Int) :
    ∀ (f t : KenLMBeamState State TrieNode) (fl : Int) (score : ℚ)
      (st : KenLMBeamState State TrieNode) (acc : ℚ),
      score = scorer.lm_weight * f.score →
      ScoreBeamLoop scorer labels f t fl score = .ok (st, acc) →
      acc = scorer.lm_weight * st.score := by
  induction labels with
  | nil =>
    intro f t fl score st acc hscore h
    simp only [ScoreBeamLoop] at h
    cases h
    exact hscore
  | cons l ls ih =>
    intro f t fl score st acc hscore h
    cases hexp : scorer.ExpandState f fl t l with
    | error e => simp [ScoreBeamLoop, hexp] at h
    | ok r =>
      rw [ScoreBeamLoop_cons_ok scorer hexp] at h
      refine ih r t fl _ st acc ?_ h
      rw [KenLMBeamScorer.GetStateExpansionScore, ExpandState_delta_score scorer hexp, hscore]
      ring

theorem ScoreBeamLoop_reachable (labels : List Int) :
    ∀ (f t : KenLMBeamState State TrieNode) (fl : Int) (score : ℚ)
      (st : KenLMBeamState State TrieNode) (acc : ℚ),
      Reachable scorer f →
      ScoreBeamLoop scorer labels f t fl score = .ok (st, acc) →
      Reachable scorer st := by
  induction labels with
  | nil =>
    intro f t fl score st acc hf h
    simp only [ScoreBeamLoop] at h
    cases h
    exact hf
  | cons l ls ih =>
    intro f t fl score st acc hf h
    cases hexp : scorer.ExpandState f fl t l with
    | error e => simp [ScoreBeamLoop, hexp] at h
    | ok r =>
      rw [ScoreBeamLoop_cons_ok scorer hexp] at h
      exact ih r t fl _ st acc (Reachable.expand fl t l hf hexp) h

theorem ExpandStateEnd_telescope (st : KenLMBeamState State TrieNode) (acc : ℚ)
    (h : acc = scorer.lm_weight * st.score) :
    acc + scorer.GetStateEndExpansionScore (scorer.ExpandStateEnd st) =
      scorer.lm_weight * (scorer.ExpandStateEnd st).score := by
  rw [KenLMBeamScorer.GetStateEndExpansionScore, (ExpandStateEnd_score scorer st).2,
    (ExpandStateEnd_score scorer st).1, h]
  ring

theorem descend_snoc (cursor : Option TrieNode) (labels : List Int) (l : Int) :
    descend scorer cursor (labels ++ [l]) = descendStep scorer (descend scorer cursor labels) l := by
  simp [descend, List.foldl_append]

theorem descend_none (labels : List Int) : descend scorer none labels = none := by
  induction labels with
  | nil => rfl
  | cons l ls ih => simpa [descend, descendStep] using ih

theorem descend_append_none (cursor : Option TrieNode) (pre suf : List Int)
    (h : descend scorer cursor pre = none) : descend scorer cursor (pre ++ suf) = none := by
  have happ : descend scorer cursor (pre ++ suf) = descend scorer (descend scorer cursor pre) suf := by
    simp [descend, List.foldl_append]
  rw [happ, h, descend_none]

theorem ScoreBeamLoop_cursor (labels : List Int) :
    ∀ (f t : KenLMBeamState State TrieNode) (fl : Int) (score : ℚ)
      (st : KenLMBeamState State TrieNode) (acc : ℚ) (current : List Int),
      f.incomplete_word_trie_node = descend scorer scorer.trieRoot current →
      ScoreBeamLoop scorer labels f t fl score = .ok (st, acc) →
      st.incomplete_word_trie_node =
        descend scorer scorer.trieRoot (labelsSinceSpaceFrom scorer.vocabulary current labels) := by
  induction labels with
  | nil =>
    intro f t fl score st acc current hf h
    simp only [ScoreBeamLoop] at h
    cases h
    exact hf
  | cons l ls ih =>
    intro f t fl score st acc current hf h
    cases hexp : scorer.ExpandState f fl t l with
    | error e => simp [ScoreBeamLoop, hexp] at h
    | ok r =>
      rw [ScoreBeamLoop_cons_ok scorer hexp] at h
      rcases ExpandState_ok_cases scorer hexp with hs | ⟨hs, c, hc⟩
      · have hstep : labelsSinceSpaceFrom scorer.vocabulary current (l :: ls) =
            labelsSinceSpaceFrom scorer.vocabulary [] ls := by
          simp [labelsSinceSpaceFrom, hs]
        rw [hstep]
        refine ih r t fl _ st acc [] ?_ h
        rw [ExpandState_space scorer f t fl l hs] at hexp
        cases hexp
        rfl
      · have hstep : labelsSinceSpaceFrom scorer.vocabulary current (l :: ls) =
            labelsSinceSpaceFrom scorer.vocabulary (current ++ [l]) ls := by
          simp [labelsSinceSpaceFrom, hs]
        rw [hstep]
        refine ih r t fl _ st acc (current ++ [l]) ?_ h
        rw [ExpandState_char scorer f t fl l c hs hc] at hexp
        cases hexp
        rw [descend_snoc, ← hf]

theorem ScoreBeamLoop_word
    (hwf : (scorer.vocabulary.char_list.length : Int) = scorer.vocabulary.size)
    (w : List Int) :
    ∀ (f t : KenLMBeamState State TrieNode) (fl : Int) (score : ℚ),
      (∀ l ∈ w, 0 ≤ l ∧ l < scorer.vocabulary.size ∧
        scorer.vocabulary.IsSpaceLabel l = .ok false) →
      ∃ st acc, ScoreBeamLoop scorer w f t fl score = .ok (st, acc) ∧
        st.incomplete_word = f.incomplete_word ++ spell scorer.vocabulary w ∧
        st.language_model_score = f.language_model_score ∧
        st.model_state = f.model_state := by
  induction w with
  | nil =>
    intro f t fl score _
    exact ⟨f, score, rfl, by simp [spell], rfl, rfl⟩
  | cons l ls ih =>
    intro f t fl score hl
    obtain ⟨h0, hN, hs⟩ := hl l (List.mem_cons_self _ _)
    have hc := GetCharacterFromLabel_in_range hwf h0 hN
    obtain ⟨r, hexp, hrword, hrlm, hrmodel⟩ :
        ∃ r, scorer.ExpandState f fl t l = .ok r ∧
          r.incomplete_word = f.incomplete_word ++ [scorer.vocabulary.char_list.getD l.toNat 0] ∧
          r.language_model_score = f.language_model_score ∧ r.model_state = f.model_state :=
      ⟨_, ExpandState_char scorer f t fl l _ hs hc, rfl, rfl, rfl⟩
    obtain ⟨st, acc, hloop, hword, hlm, hmodel⟩ :=
      ih r t fl (scorer.GetStateExpansionScore r score)
        (fun x hx => hl x (List.mem_cons_of_mem _ hx))
    refine ⟨st, acc, ?_, ?_, hlm.trans hrlm, hmodel.trans hrmodel⟩
    · rw [ScoreBeamLoop_cons_ok scorer hexp]
      exact hloop
    · rw [hword, hrword]
      simp [spell]

theorem ScoreBeamLoop_sentence
    (hwc : scorer.word_count_weight = 0) (hvwc : scorer.valid_word_count_weight = 0)
    (hwf : (scorer.vocabulary.char_list.length : Int) = scorer.vocabulary.size)
    (space : Int) (hspace : scorer.vocabulary.IsSpaceLabel space = .ok true)
    (words : List (List Int)) :
    words ≠ [] →
    (∀ w ∈ words, w ≠ [] ∧ ∀ l ∈ w, 0 ≤ l ∧ l < scorer.vocabulary.size ∧
      scorer.vocabulary.IsSpaceLabel l = .ok false) →
    ∀ (f t : KenLMBeamState State TrieNode) (fl : Int) (score : ℚ),
      f.incomplete_word = [] →
      ∃ st acc, ScoreBeamLoop scorer (labelPath space words) f t fl score = .ok (st, acc) ∧
        (scorer.ExpandStateEnd st).language_model_score =
          f.language_model_score + directScore scorer.model f.model_state
            (words.map (fun w => scorer.model.Index (scorer.utf16to8 (spell scorer.vocabulary w)))) := by
  induction words with
  | nil => intro h; exact absurd rfl h
  | cons w ws ih =>
    intro _ hwords f t fl score hfw
    obtain ⟨hwne, hwl⟩ := hwords w (List.mem_cons_self _ _)
    obtain ⟨st1, acc1, hloop1, hword1, hlm1, hmodel1⟩ :=
      ScoreBeamLoop_word scorer hwf w f t fl score hwl
    rw [hfw, List.nil_append] at hword1
    cases ws with
    | nil =>
      refine ⟨st1, acc1, hloop1, ?_⟩
      have hne : st1.incomplete_word ≠ [] := by
        rw [hword1]
        simpa [spell] using hwne
      rw [ExpandStateEnd_nonempty scorer st1 hne]
      simp only [KenLMBeamScorer.ScoreIncompleteWord, hword1, hlm1, hmodel1, directScore,
        List.map_cons, List.map_nil]
    | cons w' ws' =>
      obtain ⟨r, hexp, hrword, hrlm, hrmodel⟩ :
          ∃ r, scorer.ExpandState st1 fl t space = .ok r ∧ r.incomplete_word = [] ∧
            r.language_model_score = closedScore scorer st1 ∧
            r.model_state =
              (scorer.ScoreIncompleteWord st1.model_state st1.incomplete_word).2 :=
        ⟨_, ExpandState_space scorer st1 t fl space hspace, rfl, rfl, rfl⟩
      obtain ⟨st, acc, hloop, hend⟩ :=
        ih (List.cons_ne_nil _ _) (fun x hx => hwords x (List.mem_cons_of_mem _ hx))
          r t fl (scorer.GetStateExpansionScore r acc1) hrword
      refine ⟨st, acc, ?_, ?_⟩
      · show ScoreBeamLoop scorer (w ++ space :: labelPath space (w' :: ws')) f t fl score = _
        rw [ScoreBeamLoop_append scorer w _ f t fl score st1 acc1 hloop1,
          ScoreBeamLoop_cons_ok scorer hexp]
        exact hloop
      · rw [hend, hrlm, hrmodel]
        simp only [closedScore, KenLMBeamScorer.ScoreIncompleteWord, hword1, hlm1, hmodel1,
          hwc, hvwc, List.map_cons, directScore, add_zero, ite_self]
        ring

theorem ExpandStateEnd_after_space (st to_state : KenLMBeamState State TrieNode)
    (from_label space : Int) (hspace : scorer.vocabulary.IsSpaceLabel space = .ok true)
    (hne : st.incomplete_word ≠ []) :
    ∃ r, scorer.ExpandState st from_label to_state space = .ok r ∧
      (scorer.ExpandStateEnd r).language_model_score =
        (scorer.ExpandStateEnd st).language_model_score + scorer.word_count_weight
        + (if scorer.IsOOV st.incomplete_word then 0 else scorer.valid_word_count_weight) := by
  refine ⟨_, ExpandState_space scorer st to_state from_label space hspace, ?_⟩
  rw [ExpandStateEnd_empty scorer _ rfl, ExpandStateEnd_nonempty scorer st hne]
  simp only [closedScore]
  cases scorer.IsOOV st.incomplete_word <;> simp <;> ring

theorem ScoreBeam_labelPath
    (hwc : scorer.word_count_weight = 0) (hvwc : scorer.valid_word_count_weight = 0)
    (hwf : (scorer.vocabulary.char_list.length : Int) = scorer.vocabulary.size)
    (space : Int) (hspace : scorer.vocabulary.IsSpaceLabel space = .ok true)
    (words : List (List Int)) (hne : words ≠ [])
    (hwords : ∀ w ∈ words, w ≠ [] ∧ ∀ l ∈ w, 0 ≤ l ∧ l < scorer.vocabulary.size ∧
      scorer.vocabulary.IsSpaceLabel l = .ok false)
    (states0 states1 : KenLMBeamState State TrieNode) :
    ScoreBeam scorer (labelPath space words) states0 states1 =
      .ok (scorer.lm_weight * directScore scorer.model scorer.model.BeginSentenceState
        (words.map (fun w => scorer.model.Index (scorer.utf16to8 (spell scorer.vocabulary w))))) := by
  obtain ⟨st, acc, hloop, hend⟩ :=
    ScoreBeamLoop_sentence scorer hwc hvwc hwf space hspace words hne hwords
      (scorer.InitializeState states0) states1 (-1) 0 rfl
  have hacc : acc = scorer.lm_weight * st.score :=
    ScoreBeamLoop_telescope scorer _ _ _ _ _ st acc
      (by simp [KenLMBeamScorer.InitializeState]) hloop
  have htel := ExpandStateEnd_telescope scorer st acc hacc
  rw [(ExpandStateEnd_score scorer st).1, hend] at htel
  simp only [ScoreBeam, hloop, htel]
  simp [KenLMBeamScorer.InitializeState]

theorem labelPath_append_singleton (space : Int) (words : List (List Int)) (w : List Int)
    (hne : words ≠ []) :
    labelPath space (words ++ [w]) = labelPath space words ++ space :: w := by
  induction words with
  | nil => exact absurd rfl hne
  | cons x xs ih =>
    cases xs with
    | nil => rfl
    | cons y ys =>
      show x ++ space :: labelPath space (y :: ys ++ [w]) =
        (x ++ space :: labelPath space (y :: ys)) ++ space :: w
      rw [ih (List.cons_ne_nil _ _)]
      simp

theorem directScore_append_singleton (model : Model State) (x : WordIndex)
    (ws : List WordIndex) :
    ∀ context : State,
      directScore model context (ws ++ [x]) =
        directScore model context ws
        - (model.FullScore (contextAfter model context ws) model.EndSentence).1
        + (model.FullScore (contextAfter model context ws) x).1
        + (model.FullScore (model.FullScore (contextAfter model context ws) x).2
            model.EndSentence).1 := by
  induction ws with
  | nil =>
    intro context
    simp only [List.nil_append, directScore, contextAfter]
    ring
  | cons w ws ih =>
    intro context
    show (model.FullScore context w).1 +
        directScore model (model.FullScore context w).2 (ws ++ [x]) =
      (model.FullScore context w).1 + directScore model (model.FullScore context w).2 ws
        - (model.FullScore (contextAfter model (model.FullScore context w).2 ws)
            model.EndSentence).1
        + (model.FullScore (contextAfter model (model.FullScore context w).2 ws) x).1
        + (model.FullScore
            (model.FullScore (contextAfter model (model.FullScore context w).2 ws) x).2
            model.EndSentence).1
    rw [ih]
    ring

end loop

/-! ## Single-step properties -/

/-- C3: for every state, reachable or not, the state after `ExpandStateEnd`
has `language_model_score` equal to `score`. -/
theorem ExpandStateEnd_language_model_score_eq_score
    (scorer : KenLMBeamScorer State TrieNode) (state : KenLMBeamState State TrieNode) :
    (scorer.ExpandStateEnd state).language_model_score = (scorer.ExpandStateEnd state).score :=
  (ExpandStateEnd_score scorer state).1.symm

/-- C6: mid-word extension. For a non-space label `L` with `0 ≤ L < N`,
`ExpandState` returns a state whose incomplete word is that of `from_state`
followed by the character of `L`, whose `language_model_score` and
`model_state` are those of `from_state`, whose `score` is
`e + from_state.language_model_score` with `e` the cached score of the child
at `L` of the cursor of `from_state` when the cursor and the child exist and
`-10` otherwise, and whose `delta_score` is `score` minus the score of
`from_state`. -/
theorem ExpandState_char_extends_word
    (scorer : KenLMBeamScorer State TrieNode)
    (from_state to_state : KenLMBeamState State TrieNode) (from_label L : Int)
    (hwf : (scorer.vocabulary.char_list.length : Int) = scorer.vocabulary.size)
    (h0 : 0 ≤ L) (hN : L < scorer.vocabulary.size)
    (hnonspace : scorer.vocabulary.IsSpaceLabel L = .ok false) :
    ∃ result c, scorer.ExpandState from_state from_label to_state L = .ok result ∧
      scorer.vocabulary.GetCharacterFromLabel L = .ok c ∧
      result.incomplete_word = from_state.incomplete_word ++ [c] ∧
      result.language_model_score = from_state.language_model_score ∧
      result.model_state = from_state.model_state ∧
      result.score =
        (match from_state.incomplete_word_trie_node with
         | some node =>
           match scorer.trie.GetChildAt node L with
           | some child => scorer.trie.GetMinUnigramScore child
           | none => -10
         | none => -10) + from_state.language_model_score ∧
      result.delta_score = result.score - from_state.score := by
  have hc := GetCharacterFromLabel_in_range hwf h0 hN
  exact ⟨_, _, ExpandState_char scorer from_state to_state from_label L _ hnonspace hc, hc,
    rfl, rfl, rfl, rfl, rfl⟩

/-- Witness of C6 on the concrete scorer: extending the prefix `a` (trie node
1, language model score 1, score 0) by the label of `b` reaches the trie node
2 with cached score -2, hence score -2 + 1 = -1 and a change of score of -1. -/
theorem ExpandState_char_extends_word_witness :
    ((exampleScorer 2 3 4).vocabulary.char_list.length : Int)
      = (exampleScorer 2 3 4).vocabulary.size ∧
    (0 : Int) ≤ 1 ∧ (1 : Int) < (exampleScorer 2 3 4).vocabulary.size ∧
    (exampleScorer 2 3 4).vocabulary.IsSpaceLabel 1 = .ok false ∧
    ∃ result, (exampleScorer 2 3 4).ExpandState stateAfterA 0 staleState 1 = .ok result ∧
      result.incomplete_word = [97, 98] ∧ result.language_model_score = 1 ∧
      result.model_state = [] ∧ result.score = -1 ∧ result.delta_score = -1 := by
  obtain ⟨result, c, hres, hc, hword, hlm, hmodel, hscore, hdelta⟩ :=
    ExpandState_char_extends_word (exampleScorer 2 3 4) stateAfterA staleState 0 1
      (by decide) (by decide) (by decide) (by decide)
  have hc98 : c = 98 := by
    have h98 : (exampleScorer 2 3 4).vocabulary.GetCharacterFromLabel 1 = .ok 98 := by decide
    rw [h98] at hc
    exact (Except.ok.inj hc).symm
  have hs : result.score = -1 := by
    rw [hscore]; norm_num [exampleScorer, exampleTrie, stateAfterA]
  refine ⟨by decide, by decide, by decide, by decide, result, hres, ?_, ?_, ?_, hs, ?_⟩
  · rw [hword, hc98]; rfl
  · rw [hlm]; rfl
  · rw [hmodel]; rfl
  · rw [hdelta, hs]; norm_num [stateAfterA]

/-- C2: in every state reachable from `InitializeState` by calls of
`ExpandState`, and in the state that `ExpandStateEnd` makes of it, an empty
incomplete word implies that `score` equals `language_model_score`. -/
theorem score_eq_language_model_score_of_empty_word
    (scorer : KenLMBeamScorer State TrieNode) (state : KenLMBeamState State TrieNode)
    (hreach : Reachable scorer state) :
    (state.incomplete_word = [] → state.score = state.language_model_score) ∧
    ((scorer.ExpandStateEnd state).incomplete_word = [] →
      (scorer.ExpandStateEnd state).score = (scorer.ExpandStateEnd state).language_model_score) := by
  refine ⟨?_, fun _ => (ExpandStateEnd_score scorer state).1⟩
  cases hreach with
  | init root => intro _; rfl
  | expand from_label to_state to_label _ hexp => exact ExpandState_word_boundary scorer hexp

/-- Witness of C2: the state of the concrete scorer after the expansions by
the label of `b` and the space label is reachable, its incomplete word is
empty and its two scores are both 6. -/
theorem score_eq_language_model_score_of_empty_word_witness :
    Reachable (exampleScorer 2 3 4) stateAfterBSpace ∧
    stateAfterBSpace.incomplete_word = [] ∧
    stateAfterBSpace.score = stateAfterBSpace.language_model_score ∧
    ((exampleScorer 2 3 4).ExpandStateEnd stateAfterBSpace).score =
      ((exampleScorer 2 3 4).ExpandStateEnd stateAfterBSpace).language_model_score :=
  have hreach : Reachable (exampleScorer 2 3 4) stateAfterBSpace :=
    Reachable.expand 1 staleState 2
      (Reachable.expand (-1) staleState 1 (Reachable.init staleState)
        (exampleScorer_expand_b 2 3 4))
      exampleScorer_expand_b_space
  have hinv := score_eq_language_model_score_of_empty_word (exampleScorer 2 3 4)
    stateAfterBSpace hreach
  ⟨hreach, rfl, hinv.1 rfl,
    hinv.2 (by rw [ExpandStateEnd_empty _ _ rfl]; rfl)⟩

/-! ## Properties of whole label paths -/

/-- C1: with `lm_weight = 1` and both bonuses 0, for a non-empty list of
non-empty words spelled with non-space labels of `[0, N)`, `ScoreBeam` on the
label path of the words (one space label between consecutive words, none at
the end), which is `InitializeState`, one `ExpandState` per label,
`ExpandStateEnd`, and the accumulation of `GetStateExpansionScore` and
`GetStateEndExpansionScore`, returns the sum that the direct scoring
computes: the `FullScore` probability of the index of each word, each in the
context returned by the previous call and the first in `BeginSentenceState`,
plus that of `EndSentence` in the last context. -/
theorem ScoreBeam_eq_directScore
    (scorer : KenLMBeamScorer State TrieNode) (space : Int) (words : List (List Int))
    (states0 states1 : KenLMBeamState State TrieNode)
    (hlm : scorer.lm_weight = 1) (hwc : scorer.word_count_weight = 0)
    (hvwc : scorer.valid_word_count_weight = 0)
    (hwf : (scorer.vocabulary.char_list.length : Int) = scorer.vocabulary.size)
    (hspace : scorer.vocabulary.IsSpaceLabel space = .ok true)
    (hne : words ≠ [])
    (hwords : ∀ w ∈ words, w ≠ [] ∧ ∀ l ∈ w, 0 ≤ l ∧ l < scorer.vocabulary.size ∧
      scorer.vocabulary.IsSpaceLabel l = .ok false) :
    ScoreBeam scorer (labelPath space words) states0 states1 =
      .ok (directScore scorer.model scorer.model.BeginSentenceState
        (words.map (fun w => scorer.model.Index (scorer.utf16to8 (spell scorer.vocabulary w))))) := by
  obtain ⟨st, acc, hloop, hend⟩ :=
    ScoreBeamLoop_sentence scorer hwc hvwc hwf space hspace words hne hwords
      (scorer.InitializeState states0) states1 (-1) 0 rfl
  have hacc : acc = scorer.lm_weight * st.score :=
    ScoreBeamLoop_telescope scorer _ _ _ _ _ st acc
      (by simp [KenLMBeamScorer.InitializeState]) hloop
  have htel := ExpandStateEnd_telescope scorer st acc hacc
  rw [hlm, one_mul, (ExpandStateEnd_score scorer st).1, hend] at htel
  simp only [ScoreBeam, hloop, htel]
  simp [KenLMBeamScorer.InitializeState]

/-- Witness of C1 on the concrete scorer with `lm_weight = 1` and no bonus:
the words `ab` and `b`, spelled by the label path 0, 1, 2, 1, score
-1 + -2 + -3 = -6. -/
theorem ScoreBeam_eq_directScore_witness :
    (exampleScorer 1 0 0).lm_weight = 1 ∧ (exampleScorer 1 0 0).word_count_weight = 0 ∧
    (exampleScorer 1 0 0).valid_word_count_weight = 0 ∧
    ((exampleScorer 1 0 0).vocabulary.char_list.length : Int)
      = (exampleScorer 1 0 0).vocabulary.size ∧
    (exampleScorer 1 0 0).vocabulary.IsSpaceLabel 2 = .ok true ∧
    ([[0, 1], [1]] : List (List Int)) ≠ [] ∧
    (∀ w ∈ ([[0, 1], [1]] : List (List Int)), w ≠ [] ∧
      ∀ l ∈ w, 0 ≤ l ∧ l < (exampleScorer 1 0 0).vocabulary.size ∧
        (exampleScorer 1 0 0).vocabulary.IsSpaceLabel l = .ok false) ∧
    ScoreBeam (exampleScorer 1 0 0) [0, 1, 2, 1] staleState staleState = .ok (-6) := by
  have h := ScoreBeam_eq_directScore (exampleScorer 1 0 0) 2 [[0, 1], [1]] staleState staleState
    rfl rfl rfl (by decide) (by decide) (by decide) (by decide)
  refine ⟨rfl, rfl, rfl, by decide, by decide, by decide, by decide, ?_⟩
  have hpath : labelPath 2 [[0, 1], [1]] = [0, 1, 2, 1] := rfl
  rw [hpath] at h
  rw [h]
  simp [directScore, exampleScorer, exampleModel, spell]
  norm_num

/-- C4: path-score telescoping. Along the loop of `ScoreBeam`, which starts
from accumulated score 0 and the state of `InitializeState` and replaces the
accumulated score by `GetStateExpansionScore` after each `ExpandState`, the
accumulated score after the labels is `lm_weight * state.score`; and after
`ExpandStateEnd` and the addition of `GetStateEndExpansionScore` it is
`lm_weight` times the score of the end state, which is the result of
`ScoreBeam`. With `lm_weight = 1` the accumulated score is the score of the
state. The same holds after every number `k` of iterations, where the state
and the accumulated score are those of the loop on the first `k` labels. -/
theorem ScoreBeam_telescopes
    (scorer : KenLMBeamScorer State TrieNode) (labels : List Int)
    (states0 states1 : KenLMBeamState State TrieNode)
    (hwf : (scorer.vocabulary.char_list.length : Int) = scorer.vocabulary.size)
    (hlabels : ∀ l ∈ labels, 0 ≤ l ∧ l < scorer.vocabulary.size) :
    ∃ st acc,
      ScoreBeamLoop scorer labels (scorer.InitializeState states0) states1 (-1) 0 = .ok (st, acc) ∧
      acc = scorer.lm_weight * st.score ∧
      acc + scorer.GetStateEndExpansionScore (scorer.ExpandStateEnd st) =
        scorer.lm_weight * (scorer.ExpandStateEnd st).score ∧
      ScoreBeam scorer labels states0 states1 =
        .ok (scorer.lm_weight * (scorer.ExpandStateEnd st).score) ∧
      (scorer.lm_weight = 1 →
        acc = st.score ∧
        ScoreBeam scorer labels states0 states1 = .ok (scorer.ExpandStateEnd st).score) ∧
      (∀ k : Nat, ∃ stk acck,
        ScoreBeamLoop scorer (labels.take k) (scorer.InitializeState states0) states1 (-1) 0
          = .ok (stk, acck) ∧
        acck = scorer.lm_weight * stk.score ∧
        ∀ rest_state rest_acc,
          ScoreBeamLoop scorer (labels.drop k) stk states1 (-1) acck = .ok (rest_state, rest_acc) →
          rest_state = st ∧ rest_acc = acc) := by
  obtain ⟨st, acc, hloop⟩ := ScoreBeamLoop_in_range scorer hwf labels
    (scorer.InitializeState states0) states1 (-1) 0 hlabels
  have hacc : acc = scorer.lm_weight * st.score :=
    ScoreBeamLoop_telescope scorer labels _ _ _ _ st acc
      (by simp [KenLMBeamScorer.InitializeState]) hloop
  have hend := ExpandStateEnd_telescope scorer st acc hacc
  have hbeam : ScoreBeam scorer labels states0 states1 =
      .ok (scorer.lm_weight * (scorer.ExpandStateEnd st).score) := by
    simp only [ScoreBeam, hloop, hend]
  refine ⟨st, acc, hloop, hacc, hend, hbeam, ?_, ?_⟩
  · intro h1
    rw [h1, one_mul] at hacc
    rw [h1, one_mul] at hbeam
    exact ⟨hacc, hbeam⟩
  · intro k
    obtain ⟨stk, acck, hk⟩ := ScoreBeamLoop_in_range scorer hwf (labels.take k)
      (scorer.InitializeState states0) states1 (-1) 0
      (fun l hl => hlabels l (List.mem_of_mem_take hl))
    refine ⟨stk, acck, hk, ?_, ?_⟩
    · exact ScoreBeamLoop_telescope scorer _ _ _ _ _ stk acck
        (by simp [KenLMBeamScorer.InitializeState]) hk
    · intro rest_state rest_acc hrest
      have happ := ScoreBeamLoop_append scorer (labels.take k) (labels.drop k) _ _ _ _ stk acck hk
      rw [List.take_append_drop, hloop, hrest] at happ
      cases happ
      exact ⟨rfl, rfl⟩

/-- Witness of C4 on the concrete scorer with `lm_weight = 2`, for the label
path of `b`, space, `a`. -/
theorem ScoreBeam_telescopes_witness :
    ((exampleScorer 2 3 4).vocabulary.char_list.length : Int)
      = (exampleScorer 2 3 4).vocabulary.size ∧
    (∀ l ∈ [(1 : Int), 2, 0], 0 ≤ l ∧ l < (exampleScorer 2 3 4).vocabulary.size) ∧
    ∃ st acc,
      ScoreBeamLoop (exampleScorer 2 3 4) [1, 2, 0]
        ((exampleScorer 2 3 4).InitializeState staleState) staleState (-1) 0 = .ok (st, acc) ∧
      acc = 2 * st.score ∧
      ScoreBeam (exampleScorer 2 3 4) [1, 2, 0] staleState staleState =
        .ok (2 * ((exampleScorer 2 3 4).ExpandStateEnd st).score) := by
  obtain ⟨st, acc, hloop, hacc, _, hbeam, _, _⟩ :=
    ScoreBeam_telescopes (exampleScorer 2 3 4) [1, 2, 0] staleState staleState
      (by decide) (by decide)
  exact ⟨by decide, by decide, st, acc, hloop, hacc, hbeam⟩

/-- C7: trie-cursor invariant. After `InitializeState` and the expansion of a
sequence of labels of `[0, N)`, the cursor `incomplete_word_trie_node` is the
node reached from the trie root by `GetChildAt` along the labels expanded
since the last space label (the root when there are none), and it is null as
soon as the descent along a prefix of these labels is absent. A null cursor
stays null through a non-space expansion, and after a space expansion the
cursor is the trie root. -/
theorem trie_cursor_invariant
    (scorer : KenLMBeamScorer State TrieNode) (labels : List Int)
    (states0 states1 : KenLMBeamState State TrieNode)
    (hwf : (scorer.vocabulary.char_list.length : Int) = scorer.vocabulary.size)
    (hlabels : ∀ l ∈ labels, 0 ≤ l ∧ l < scorer.vocabulary.size) :
    (∃ st acc,
      ScoreBeamLoop scorer labels (scorer.InitializeState states0) states1 (-1) 0 = .ok (st, acc) ∧
      st.incomplete_word_trie_node =
        descend scorer scorer.trieRoot (labelsSinceSpace scorer.vocabulary labels) ∧
      (∀ pre suf, labelsSinceSpace scorer.vocabulary labels = pre ++ suf →
        descend scorer scorer.trieRoot pre = none → st.incomplete_word_trie_node = none)) ∧
    (∀ (from_state to_state result : KenLMBeamState State TrieNode) (from_label to_label : Int),
      from_state.incomplete_word_trie_node = none →
      scorer.vocabulary.IsSpaceLabel to_label = .ok false →
      scorer.ExpandState from_state from_label to_state to_label = .ok result →
      result.incomplete_word_trie_node = none) ∧
    (∀ (from_state to_state result : KenLMBeamState State TrieNode) (from_label to_label : Int),
      scorer.vocabulary.IsSpaceLabel to_label = .ok true →
      scorer.ExpandState from_state from_label to_state to_label = .ok result →
      result.incomplete_word_trie_node = scorer.trieRoot) := by
  refine ⟨?_, ?_, ?_⟩
  · obtain ⟨st, acc, hloop⟩ := ScoreBeamLoop_in_range scorer hwf labels
      (scorer.InitializeState states0) states1 (-1) 0 hlabels
    have hcur := ScoreBeamLoop_cursor scorer labels _ _ _ _ st acc [] rfl hloop
    refine ⟨st, acc, hloop, hcur, ?_⟩
    intro pre suf hsplit hnone
    rw [hcur]
    show descend scorer scorer.trieRoot (labelsSinceSpace scorer.vocabulary labels) = none
    rw [hsplit]
    exact descend_append_none scorer _ pre suf hnone
  · intro f t r fl l hnull hs hexp
    rcases ExpandState_ok_cases scorer hexp with hs' | ⟨_, c, hc⟩
    · rw [hs] at hs'; cases hs'
    · rw [ExpandState_char scorer f t fl l c hs hc] at hexp
      cases hexp
      simp [descendStep, hnull]
  · intro f t r fl l hs hexp
    rw [ExpandState_space scorer f t fl l hs] at hexp
    cases hexp
    rfl

/-- Witness of C7 on the concrete scorer, for the labels of `a`, space, `b`,
`a`: the labels since the last space are those of `ba`; the trie has the
prefix `b` but not `ba`, and the cursor is null. -/
theorem trie_cursor_invariant_witness :
    ((exampleScorer 2 3 4).vocabulary.char_list.length : Int)
      = (exampleScorer 2 3 4).vocabulary.size ∧
    (∀ l ∈ [(0 : Int), 2, 1, 0], 0 ≤ l ∧ l < (exampleScorer 2 3 4).vocabulary.size) ∧
    labelsSinceSpace (exampleScorer 2 3 4).vocabulary [0, 2, 1, 0] = [1, 0] ∧
    descend (exampleScorer 2 3 4) (some 0) [1] = some 3 ∧
    ∃ st acc,
      ScoreBeamLoop (exampleScorer 2 3 4) [0, 2, 1, 0]
        ((exampleScorer 2 3 4).InitializeState staleState) staleState (-1) 0 = .ok (st, acc) ∧
      st.incomplete_word_trie_node = none := by
  obtain ⟨⟨st, acc, hloop, hcur, _⟩, _, _⟩ :=
    trie_cursor_invariant (exampleScorer 2 3 4) [0, 2, 1, 0] staleState staleState
      (by decide) (by decide)
  have hdesc : descend (exampleScorer 2 3 4) (exampleScorer 2 3 4).trieRoot
      (labelsSinceSpace (exampleScorer 2 3 4).vocabulary [0, 2, 1, 0]) = none := by decide
  exact ⟨by decide, by decide, by decide, by decide, st, acc, hloop, hcur.trans hdesc⟩

/-! ## Divergences between the closure paths -/

/-- C9, evaluation of the code at the failing input: on the concrete scorer
with word bonus 3 and valid-word bonus 4, the reachable state that holds the
known word `b` is finalised by `ExpandStateEnd` to language model score and
score -3, while the state that `ExpandState` with the space label makes of it
is finalised to 4: the closure of the last word by `ExpandStateEnd` adds
neither bonus. -/
theorem ExpandStateEnd_differs_from_space_closure :
    Reachable (exampleScorer 2 3 4) stateAfterB ∧
    stateAfterB.incomplete_word ≠ [] ∧
    (exampleScorer 2 3 4).ExpandState stateAfterB 1 staleState 2 = .ok stateAfterBSpace ∧
    ((exampleScorer 2 3 4).ExpandStateEnd stateAfterB).language_model_score = -3 ∧
    ((exampleScorer 2 3 4).ExpandStateEnd stateAfterB).score = -3 ∧
    ((exampleScorer 2 3 4).ExpandStateEnd stateAfterBSpace).language_model_score = 4 ∧
    ((exampleScorer 2 3 4).ExpandStateEnd stateAfterBSpace).score = 4 := by
  have hne : stateAfterB.incomplete_word ≠ [] := by decide
  refine ⟨Reachable.expand (-1) staleState 1 (Reachable.init staleState)
    (exampleScorer_expand_b 2 3 4), hne, exampleScorer_expand_b_space, ?_, ?_, ?_, ?_⟩
  · rw [ExpandStateEnd_nonempty _ _ hne]
    simp [exampleScorer, exampleModel, KenLMBeamScorer.ScoreIncompleteWord, stateAfterB]
    norm_num
  · rw [ExpandStateEnd_nonempty _ _ hne]
    simp [exampleScorer, exampleModel, KenLMBeamScorer.ScoreIncompleteWord, stateAfterB]
    norm_num
  · rw [ExpandStateEnd_empty _ _ rfl]
    simp [exampleScorer, exampleModel, stateAfterBSpace]
    norm_num
  · rw [ExpandStateEnd_empty _ _ rfl]
    simp [exampleScorer, exampleModel, stateAfterBSpace]
    norm_num

/-- C10, evaluation of the code at the failing input: on the concrete scorer
with `lm_weight` 1 and both bonuses 0, the reachable state after `b` and a
space has an empty incomplete word; a second space leaves the incomplete word
equal (empty), yet the empty word is scored at the not-found index:
`delta_score` is -5 and `GetStateExpansionScore` turns the previous score -1
into -6. -/
theorem ExpandState_second_space_changes_score :
    Reachable (exampleScorer 1 0 0) plainAfterBSpace ∧
    (exampleScorer 1 0 0).ExpandState plainAfterBSpace 2 stateAfterB 2 =
      .ok plainAfterBSpaceSpace ∧
    plainAfterBSpaceSpace.incomplete_word = plainAfterBSpace.incomplete_word ∧
    plainAfterBSpaceSpace.delta_score = -5 ∧
    (exampleScorer 1 0 0).GetStateExpansionScore plainAfterBSpaceSpace (-1) = -6 := by
  refine ⟨Reachable.expand 1 staleState 2
    (Reachable.expand (-1) staleState 1 (Reachable.init staleState)
      (exampleScorer_expand_b 1 0 0))
    exampleScorer_plain_expand_b_space, exampleScorer_plain_expand_b_space_space, rfl, rfl, ?_⟩
  simp [KenLMBeamScorer.GetStateExpansionScore, exampleScorer, plainAfterBSpaceSpace]
  norm_num

/-! ## The accessors, initialisation and determinism -/

/-- C14: determinism and independence from stale buffers. The result of
`ExpandState`, all six fields of the new `to_state` (or the fault), is the
same for any two previous contents of `to_state` and any two values of
`from_label`: it is a function of `from_state` and `to_label`. Hence
`ScoreBeam` on a label sequence returns the same score whatever the two state
buffers held before, in particular when the buffers of a previous run are
reused. -/
theorem ExpandState_deterministic (scorer : KenLMBeamScorer State TrieNode) :
    (∀ (from_state to_state to_state' : KenLMBeamState State TrieNode)
        (from_label from_label' to_label : Int),
      scorer.ExpandState from_state from_label to_state to_label =
        scorer.ExpandState from_state from_label' to_state' to_label) ∧
    (∀ (labels : List Int) (states0 states1 states0' states1' : KenLMBeamState State TrieNode),
      ScoreBeam scorer labels states0 states1 = ScoreBeam scorer labels states0' states1') := by
  refine ⟨fun f t t' fl fl' l => ExpandState_independent scorer f t t' fl fl' l, ?_⟩
  intro labels s0 s1 s0' s1'
  have hinit : scorer.InitializeState s0 = scorer.InitializeState s0' := rfl
  simp only [ScoreBeam]
  rw [hinit, ScoreBeamLoop_independent scorer labels _ s1 s1' (-1) (-1) 0]

/-- C15: `GetStateExpansionScore(state, p)` is `lm_weight * state.delta_score + p`
and `GetStateEndExpansionScore(state)` is `lm_weight * state.delta_score`; two
states with the same `delta_score` get the same results, whatever their
other fields hold. -/
theorem GetStateExpansionScore_eq (scorer : KenLMBeamScorer State TrieNode) :
    (∀ (state : KenLMBeamState State TrieNode) (p : ℚ),
      scorer.GetStateExpansionScore state p = scorer.lm_weight * state.delta_score + p) ∧
    (∀ (state : KenLMBeamState State TrieNode),
      scorer.GetStateEndExpansionScore state = scorer.lm_weight * state.delta_score) ∧
    (∀ (state state' : KenLMBeamState State TrieNode),
      state.delta_score = state'.delta_score →
      (∀ p : ℚ, scorer.GetStateExpansionScore state p = scorer.GetStateExpansionScore state' p) ∧
      scorer.GetStateEndExpansionScore state = scorer.GetStateEndExpansionScore state') := by
  refine ⟨fun _ _ => rfl, fun _ => rfl, ?_⟩
  intro state state' h
  refine ⟨fun p => ?_, ?_⟩
  · rw [KenLMBeamScorer.GetStateExpansionScore, KenLMBeamScorer.GetStateExpansionScore, h]
  · rw [KenLMBeamScorer.GetStateEndExpansionScore, KenLMBeamScorer.GetStateEndExpansionScore, h]

/-- C16: whatever the state held before, after `InitializeState` the three
scores are 0, the incomplete word is empty, the trie cursor is the trie root
and `model_state` is the begin-of-sentence context of the model. -/
theorem InitializeState_result (scorer : KenLMBeamScorer State TrieNode)
    (root : KenLMBeamState State TrieNode) :
    (scorer.InitializeState root).language_model_score = 0 ∧
    (scorer.InitializeState root).score = 0 ∧
    (scorer.InitializeState root).delta_score = 0 ∧
    (scorer.InitializeState root).incomplete_word = [] ∧
    (scorer.InitializeState root).incomplete_word_trie_node = scorer.trieRoot ∧
    (scorer.InitializeState root).model_state = scorer.model.BeginSentenceState :=
  ⟨rfl, rfl, rfl, rfl, rfl, rfl⟩

/-! ## Construction of the scorer and of the vocabulary -/

/-- C13, evaluation of the code at the failing input: the constructor sets
`lm_weight` to 1 and `word_count_weight` to 0 and leaves
`valid_word_count_weight` as it finds it. When that memory holds 4, closing
the in-vocabulary word `b` (whose `FullScore` probability is -1) from
language model score 0 gives 3, not -1; when it holds 0 it gives -1. -/
theorem fresh_scorer_valid_word_bonus_indeterminate :
    (freshScorer 4).lm_weight = 1 ∧ (freshScorer 4).word_count_weight = 0 ∧
    (freshScorer 4).valid_word_count_weight = 4 ∧
    (freshScorer 4).IsOOV stateAfterB.incomplete_word = false ∧
    ((freshScorer 4).model.FullScore stateAfterB.model_state
      ((freshScorer 4).model.Index ((freshScorer 4).utf16to8 stateAfterB.incomplete_word))).1 = -1 ∧
    (∃ result, (freshScorer 4).ExpandState stateAfterB 1 staleState 2 = .ok result ∧
      result.language_model_score = 3) ∧
    (∃ result, (freshScorer 0).ExpandState stateAfterB 1 staleState 2 = .ok result ∧
      result.language_model_score = -1) := by
  refine ⟨rfl, rfl, rfl, by decide, ?_, ⟨_, ExpandState_space _ _ _ _ _ (by decide), ?_⟩,
    ⟨_, ExpandState_space _ _ _ _ _ (by decide), ?_⟩⟩
  · simp [freshScorer, KenLMBeamScorer.new, exampleModel, stateAfterB]
  · simp [freshScorer, KenLMBeamScorer.new, exampleModel, closedScore, KenLMBeamScorer.IsOOV,
      KenLMBeamScorer.ScoreIncompleteWord, stateAfterB]
    norm_num
  · simp [freshScorer, KenLMBeamScorer.new, exampleModel, closedScore, KenLMBeamScorer.IsOOV,
      KenLMBeamScorer.ScoreIncompleteWord, stateAfterB]

/-! ## Facts about the constructed vocabularies -/

theorem lookup_filter_ne (m : List (wchar_t × Int)) (c c' : wchar_t) (hne : c ≠ c') :
    (m.filter (fun p => p.1 != c')).lookup c = m.lookup c := by
  induction m with
  | nil => rfl
  | cons p ps ih =>
    obtain ⟨k, b⟩ := p
    by_cases hk : k = c'
    · subst hk
      have hck : (c == k) = false := by simpa using hne
      simp [List.filter, List.lookup_cons, hck, ih]
    · have hk' : (k != c') = true := by simpa using hk
      simp only [List.filter, hk', List.lookup_cons, ih]

theorem lookup_mapAssign (m : List (wchar_t × Int)) (c c' : wchar_t) (j : Int) :
    (mapAssign m c' j).lookup c = if c = c' then some j else m.lookup c := by
  by_cases h : c = c'
  · subst h
    simp [mapAssign, List.lookup_cons]
  · have hb : (c == c') = false := by simpa using h
    simp only [mapAssign, List.lookup_cons, hb, h, if_false]
    exact lookup_filter_ne m c c' h

theorem Vocabulary.fill_char_list (src : List wchar_t) (n : Nat) :
    ∀ (i : Nat) (v v' : Vocabulary), Vocabulary.fill src n i v = .ok v' →
      v'.char_list = v.char_list ++ (src.drop i).take n ∧ i + n ≤ src.length ∨ n = 0 ∧ v' = v := by
  induction n with
  | zero =>
    intro i v v' h
    simp only [Vocabulary.fill] at h
    cases h
    exact Or.inr ⟨rfl, rfl⟩
  | succ n ih =>
    intro i v v' h
    left
    cases hsrc : src[i]? with
    | none => simp [Vocabulary.fill, hsrc] at h
    | some c =>
      simp only [Vocabulary.fill, hsrc] at h
      obtain ⟨hlt, hc⟩ := List.getElem?_eq_some.mp hsrc
      have hdrop : src.drop i = c :: src.drop (i + 1) := by
        rw [List.drop_eq_getElem_cons hlt, hc]
      rcases ih _ _ _ h with ⟨hlist, hlen⟩ | ⟨hn, hv⟩
      · refine ⟨?_, by omega⟩
        rw [hlist, hdrop]
        simp
      · subst hn
        subst hv
        refine ⟨?_, by omega⟩
        rw [hdrop]
        simp

theorem Vocabulary.fill_lookup_absent (src : List wchar_t) (c : wchar_t) (n : Nat) :
    ∀ (i : Nat) (v v' : Vocabulary), Vocabulary.fill src n i v = .ok v' →
      (∀ k, i ≤ k → k < i + n → src[k]? ≠ some c) →
      v'.char_to_label.lookup c = v.char_to_label.lookup c := by
  induction n with
  | zero =>
    intro i v v' h _
    simp only [Vocabulary.fill] at h
    cases h
    rfl
  | succ n ih =>
    intro i v v' h habs
    cases hsrc : src[i]? with
    | none => simp [Vocabulary.fill, hsrc] at h
    | some d =>
      simp only [Vocabulary.fill, hsrc] at h
      have hdc : c ≠ d := by
        intro hcd
        exact habs i (le_refl _) (by omega) (by rw [hsrc, hcd])
      rw [ih _ _ _ h (fun k hk1 hk2 => habs k (by omega) (by omega))]
      simp only [lookup_mapAssign, hdc, if_false]

theorem Vocabulary.fill_lookup_last (src : List wchar_t) (c : wchar_t) (k : Nat) (n : Nat) :
    ∀ (i : Nat) (v v' : Vocabulary), Vocabulary.fill src n i v = .ok v' →
      i ≤ k → k < i + n → src[k]? = some c →
      (∀ k', k < k' → k' < i + n → src[k']? ≠ some c) →
      v'.char_to_label.lookup c = some (k : Int) := by
  induction n with
  | zero => intro i v v' _ h1 h2; omega
  | succ n ih =>
    intro i v v' h hik hkn hk hlast
    cases hsrc : src[i]? with
    | none => simp [Vocabulary.fill, hsrc] at h
    | some d =>
      simp only [Vocabulary.fill, hsrc] at h
      by_cases hki : k = i
      · subst hki
        have hdc : d = c := by
          rw [hsrc] at hk
          exact Option.some.inj hk
        subst hdc
        rw [Vocabulary.fill_lookup_absent src d n _ _ _ h
          (fun k' hk1 hk2 => hlast k' (by omega) (by omega))]
        simp [lookup_mapAssign]
      · exact ih _ _ _ h (by omega) (by omega) hk
          (fun k' hk1 hk2 => hlast k' hk1 (by omega))

theorem Vocabulary.new_char_list (char_list : List wchar_t) (size : Int) (v : Vocabulary)
    (h : Vocabulary.new char_list size = .ok v) :
    0 ≤ size ∧ v.size = size ∧ v.char_list = char_list.take size.toNat ∧
      size.toNat ≤ char_list.length := by
  have hwf := Vocabulary.new_well_formed char_list size v h
  unfold Vocabulary.new at h
  by_cases hneg : size < 0
  · simp [hneg] at h
  · simp only [hneg, if_false] at h
    refine ⟨by omega, hwf.2, ?_, ?_⟩
    · rcases Vocabulary.fill_char_list _ _ _ _ _ h with ⟨hlist, _⟩ | ⟨hn, hv⟩
      · simpa using hlist
      · rw [hv, hn]; rfl
    · rcases Vocabulary.fill_char_list _ _ _ _ _ h with ⟨_, hlen⟩ | ⟨hn, _⟩
      · omega
      · omega

theorem Vocabulary.ReadFromFile_eq_new (all_symbols : wstring) :
    Vocabulary.ReadFromFile all_symbols =
      Vocabulary.new all_symbols (all_symbols.length : Int) := by
  have hnonneg : ¬ ((all_symbols.length : Int) < 0) := by omega
  simp [Vocabulary.ReadFromFile, Vocabulary.new, hnonneg]

theorem Vocabulary.new_GetCharacterFromLabel (char_list : List wchar_t) (size : Int)
    (v : Vocabulary) (h : Vocabulary.new char_list size = .ok v) (i : Int)
    (h0 : 0 ≤ i) (hN : i < size) :
    ∃ c, char_list[i.toNat]? = some c ∧ v.GetCharacterFromLabel i = .ok c ∧
      readAt v.char_list i = .ok c := by
  obtain ⟨_, hsize, hlist, hlen⟩ := Vocabulary.new_char_list char_list size v h
  have hwf := (Vocabulary.new_well_formed char_list size v h).1
  have hi : i.toNat < char_list.length := by omega
  have hget : v.char_list.getD i.toNat 0 = char_list[i.toNat] := by
    rw [List.getD_eq_getElem?_getD, hlist, List.getElem?_take_of_lt (by omega),
      List.getElem?_eq_getElem hi]
    rfl
  refine ⟨char_list[i.toNat], List.getElem?_eq_getElem hi, ?_, ?_⟩
  · rw [GetCharacterFromLabel_in_range hwf h0 (hsize ▸ hN), hget]
  · rw [readAt_in_range h0 (by rw [hwf, hsize]; exact hN), hget]

theorem Vocabulary.GetCharacterFromLabel_assertion (v : Vocabulary) (label : Int)
    (h : v.size ≤ label) : v.GetCharacterFromLabel label = .error .assertion := by
  simp [Vocabulary.GetCharacterFromLabel, not_lt.mpr h]

theorem Vocabulary.new_fill (char_list : List wchar_t) (size : Int) (v : Vocabulary)
    (h : Vocabulary.new char_list size = .ok v) :
    Vocabulary.fill char_list size.toNat 0
      { size := size, char_list := [], char_to_label := [] } = .ok v := by
  unfold Vocabulary.new at h
  by_cases hneg : size < 0
  · simp [hneg] at h
  · simpa only [hneg, if_false] using h

theorem count_eq_one_index (a : wchar_t) (l : List wchar_t) (h : l.count a = 1) :
    ∃ k : Nat, l[k]? = some a ∧ ∀ j : Nat, l[j]? = some a → j = k := by
  induction l with
  | nil => simp at h
  | cons x xs ih =>
    rw [List.count_cons] at h
    by_cases hx : x = a
    · subst hx
      have hzero : xs.count x = 0 := by simpa using h
      have hnot : x ∉ xs := List.count_eq_zero.mp hzero
      refine ⟨0, by simp, ?_⟩
      intro j hj
      cases j with
      | zero => rfl
      | succ j =>
        rw [List.getElem?_cons_succ] at hj
        exact absurd (List.mem_iff_getElem?.mpr ⟨j, hj⟩) hnot
    · have hxa : (x == a) = false := by simpa using hx
      have hone : xs.count a = 1 := by simpa [hxa] using h
      obtain ⟨k, hk, huniq⟩ := ih hone
      refine ⟨k + 1, by rw [List.getElem?_cons_succ]; exact hk, ?_⟩
      intro j hj
      cases j with
      | zero =>
        exfalso
        apply hx
        simpa using hj
      | succ j =>
        rw [List.getElem?_cons_succ] at hj
        rw [huniq j hj]

theorem Vocabulary.new_IsSpaceLabel (char_list : List wchar_t) (size : Int)
    (v : Vocabulary) (h : Vocabulary.new char_list size = .ok v) (i : Int)
    (h0 : 0 ≤ i) (hN : i < size) :
    v.IsSpaceLabel i = .ok true ↔ (char_list.take size.toNat)[i.toNat]? = some SPACE := by
  obtain ⟨c, hc, _, hread⟩ := Vocabulary.new_GetCharacterFromLabel char_list size v h i h0 hN
  rw [List.getElem?_take_of_lt (by omega), hc]
  simp only [Vocabulary.IsSpaceLabel, hread]
  constructor
  · intro hok
    have hb : (c == SPACE) = true := Except.ok.inj hok
    rw [beq_iff_eq.mp hb]
  · intro hsome
    rw [Option.some.inj hsome]
    simp

/-- C17, the claim fails at a character list with a repeated character: the
vocabulary constructed from `aa` maps label 0 to `a` and `a` back to label 1. -/
theorem GetLabelFromCharacter_duplicate_character :
    ∃ v, Vocabulary.new [97, 97] 2 = .ok v ∧
      v.GetCharacterFromLabel 0 = .ok 97 ∧
      (v.GetLabelFromCharacter 97).1 = 1 ∧
      (v.GetLabelFromCharacter 97).1 ≠ 0 :=
  ⟨{ size := 2, char_list := [97, 97], char_to_label := [(97, 1)] },
    by decide, by decide, by decide, by decide⟩

/-- C17 as amended: for a vocabulary constructed from a character list whose
first `N` characters are pairwise distinct, and a label `i` with `0 ≤ i < N`,
`GetLabelFromCharacter(GetCharacterFromLabel(i))` is `i` (and the lookup
leaves the map as it is). -/
theorem GetLabelFromCharacter_GetCharacterFromLabel
    (char_list : List wchar_t) (size : Int) (v : Vocabulary)
    (h : Vocabulary.new char_list size = .ok v)
    (hnodup : (char_list.take size.toNat).Nodup)
    (i : Int) (h0 : 0 ≤ i) (hN : i < size) :
    ∃ c, v.GetCharacterFromLabel i = .ok c ∧ (v.GetLabelFromCharacter c).1 = i ∧
      (v.GetLabelFromCharacter c).2 = v := by
  obtain ⟨c, hc, hget, _⟩ := Vocabulary.new_GetCharacterFromLabel char_list size v h i h0 hN
  obtain ⟨_, _, _, hlen⟩ := Vocabulary.new_char_list char_list size v h
  have hlook : v.char_to_label.lookup c = some ((i.toNat : Nat) : Int) := by
    refine Vocabulary.fill_lookup_last char_list c i.toNat size.toNat 0 _ v
      (Vocabulary.new_fill char_list size v h) (Nat.zero_le _) (by omega) hc ?_
    intro k' hk1 hk2 hk'
    have hne := List.nodup_iff_getElem?_ne_getElem?.mp hnodup i.toNat k' hk1
      (by rw [List.length_take]; omega)
    rw [List.getElem?_take_of_lt (by omega), List.getElem?_take_of_lt (by omega), hc, hk'] at hne
    exact hne rfl
  have hi : ((i.toNat : Nat) : Int) = i := Int.toNat_of_nonneg h0
  rw [hi] at hlook
  refine ⟨c, hget, ?_, ?_⟩
  · simp [Vocabulary.GetLabelFromCharacter, hlook]
  · simp [Vocabulary.GetLabelFromCharacter, hlook]

/-- Witness of the amended C17: the alphabet `a`, `b`, space (read from an
array that ends with a terminator), label 1. -/
theorem GetLabelFromCharacter_GetCharacterFromLabel_witness :
    Vocabulary.new [97, 98, 32, 0] 3 = .ok (exampleScorer 1 0 0).vocabulary ∧
    (List.take (3 : Int).toNat [97, 98, 32, 0]).Nodup ∧ (0 : Int) ≤ 1 ∧ (1 : Int) < 3 ∧
    ∃ c, (exampleScorer 1 0 0).vocabulary.GetCharacterFromLabel 1 = .ok c ∧
      ((exampleScorer 1 0 0).vocabulary.GetLabelFromCharacter c).1 = 1 ∧
      ((exampleScorer 1 0 0).vocabulary.GetLabelFromCharacter c).2
        = (exampleScorer 1 0 0).vocabulary :=
  ⟨by decide, by decide, by decide, by decide,
    GetLabelFromCharacter_GetCharacterFromLabel [97, 98, 32, 0] 3
      (exampleScorer 1 0 0).vocabulary (by decide) (by decide) 1 (by decide) (by decide)⟩

/-- C18: for a vocabulary constructed from a character list with size `N`,
`GetSize()` is `N`, `GetCharacterFromLabel(i)` is the `i`-th character of the
list for `0 ≤ i < N`, `IsBlankLabel(label)` holds exactly when `label = N`,
and no label of `[0, N)` is the blank label. -/
theorem Vocabulary_new_contract
    (char_list : List wchar_t) (size : Int) (v : Vocabulary)
    (h : Vocabulary.new char_list size = .ok v) :
    v.GetSize = size ∧
    (∀ i : Int, 0 ≤ i → i < size →
      ∃ c, char_list[i.toNat]? = some c ∧ v.GetCharacterFromLabel i = .ok c) ∧
    (∀ label : Int, v.IsBlankLabel label = true ↔ label = size) ∧
    (∀ i : Int, 0 ≤ i → i < size → v.IsBlankLabel i = false) := by
  obtain ⟨_, hsize, _, _⟩ := Vocabulary.new_char_list char_list size v h
  refine ⟨hsize, ?_, ?_, ?_⟩
  · intro i h0 hN
    obtain ⟨c, hc, hget, _⟩ := Vocabulary.new_GetCharacterFromLabel char_list size v h i h0 hN
    exact ⟨c, hc, hget⟩
  · intro label
    simp [Vocabulary.IsBlankLabel, hsize]
  · intro i _ hN
    simp only [Vocabulary.IsBlankLabel, hsize]
    exact beq_false_of_ne (by omega)

/-- Witness of C18: the vocabulary of the concrete scorer is the one
constructed from the array `a`, `b`, space, terminator with size 3. -/
theorem Vocabulary_new_contract_witness :
    Vocabulary.new [97, 98, 32, 0] 3 = .ok (exampleScorer 1 0 0).vocabulary ∧
    (exampleScorer 1 0 0).vocabulary.GetSize = 3 ∧
    (exampleScorer 1 0 0).vocabulary.GetCharacterFromLabel 1 = .ok 98 ∧
    (exampleScorer 1 0 0).vocabulary.IsBlankLabel 3 = true ∧
    (exampleScorer 1 0 0).vocabulary.IsBlankLabel 2 = false := by
  obtain ⟨hsize, _, hblank, hnot⟩ :=
    Vocabulary_new_contract [97, 98, 32, 0] 3 (exampleScorer 1 0 0).vocabulary (by decide)
  exact ⟨by decide, hsize, by decide, (hblank 3).mpr rfl, hnot 2 (by decide) (by decide)⟩

/-- C19, the claim fails at a character list without a space: the vocabulary
constructed from `ab` has no space label in `[0, 2)`. -/
theorem IsSpaceLabel_none_without_space :
    ∃ v, Vocabulary.new [97, 98] 2 = .ok v ∧
      ¬ ∃ i : Int, 0 ≤ i ∧ i < 2 ∧ v.IsSpaceLabel i = .ok true := by
  refine ⟨{ size := 2, char_list := [97, 98], char_to_label := [(98, 1), (97, 0)] },
    by decide, ?_⟩
  rintro ⟨i, h0, h2, hs⟩
  interval_cases i
  · exact absurd hs (by decide)
  · exact absurd hs (by decide)

/-- C19 as amended: for a vocabulary constructed from a character list whose
first `N` characters contain the space character exactly once, exactly one
label of `[0, N)` satisfies `IsSpaceLabel`. -/
theorem IsSpaceLabel_unique
    (char_list : List wchar_t) (size : Int) (v : Vocabulary)
    (h : Vocabulary.new char_list size = .ok v)
    (hcount : (char_list.take size.toNat).count SPACE = 1) :
    ∃! i : Int, 0 ≤ i ∧ i < size ∧ v.IsSpaceLabel i = .ok true := by
  obtain ⟨k, hk, huniq⟩ := count_eq_one_index SPACE _ hcount
  obtain ⟨hnonneg, _, _, hlen⟩ := Vocabulary.new_char_list char_list size v h
  have hklt : k < size.toNat := by
    obtain ⟨hlt, _⟩ := List.getElem?_eq_some.mp hk
    rw [List.length_take] at hlt
    omega
  refine ⟨(k : Int), ⟨by omega, by omega, ?_⟩, ?_⟩
  · rw [Vocabulary.new_IsSpaceLabel char_list size v h (k : Int) (by omega) (by omega)]
    simpa using hk
  · rintro j ⟨hj0, hjN, hjs⟩
    rw [Vocabulary.new_IsSpaceLabel char_list size v h j hj0 hjN] at hjs
    have := huniq j.toNat hjs
    omega

/-- Witness of the amended C19: in the vocabulary of the concrete scorer,
constructed from `a`, `b`, space, the only space label is 2. -/
theorem IsSpaceLabel_unique_witness :
    Vocabulary.new [97, 98, 32, 0] 3 = .ok (exampleScorer 1 0 0).vocabulary ∧
    (List.take (3 : Int).toNat [97, 98, 32, 0]).count SPACE = 1 ∧
    (exampleScorer 1 0 0).vocabulary.IsSpaceLabel 2 = .ok true ∧
    ∃! i : Int, 0 ≤ i ∧ i < 3 ∧ (exampleScorer 1 0 0).vocabulary.IsSpaceLabel i = .ok true :=
  ⟨by decide, by decide, by decide,
    IsSpaceLabel_unique [97, 98, 32, 0] 3 (exampleScorer 1 0 0).vocabulary
      (by decide) (by decide)⟩

/-- C20, the claim fails at a negative label: in the vocabulary constructed
from `a`, `b`, space, the label -1 is outside of `[0, 3)` and is not rejected
by `assert(label < size)`; the read `char_list[-1]` is outside of the array.
The label 3 fails the assertion and the label 2 returns the space. -/
theorem GetCharacterFromLabel_negative_label :
    ∃ v, Vocabulary.new [97, 98, 32, 0] 3 = .ok v ∧
      v.GetCharacterFromLabel (-1) = .error .out_of_bounds ∧
      v.GetCharacterFromLabel (-1) ≠ .error .assertion ∧
      v.GetCharacterFromLabel 3 = .error .assertion ∧
      v.GetCharacterFromLabel 2 = .ok 32 :=
  ⟨(exampleScorer 1 0 0).vocabulary, by decide, by decide, by decide, by decide, by decide⟩

/-- C20 as amended: for a vocabulary constructed from a character list with
size `N`, `GetCharacterFromLabel(label)` fails its assertion for every
`label ≥ N` and returns the `label`-th character of the list, without
failing, for every `0 ≤ label < N`; the assertion checks the upper bound
only, so that a negative label passes it, and the read is then outside of the
character array. -/
theorem GetCharacterFromLabel_contract
    (char_list : List wchar_t) (size : Int) (v : Vocabulary)
    (h : Vocabulary.new char_list size = .ok v) :
    (∀ label : Int, size ≤ label → v.GetCharacterFromLabel label = .error .assertion) ∧
    (∀ label : Int, 0 ≤ label → label < size →
      ∃ c, char_list[label.toNat]? = some c ∧ v.GetCharacterFromLabel label = .ok c) ∧
    (∀ label : Int, label < 0 → v.GetCharacterFromLabel label = .error .out_of_bounds) := by
  obtain ⟨hnonneg, hsize, _, _⟩ := Vocabulary.new_char_list char_list size v h
  refine ⟨?_, ?_, ?_⟩
  · intro label hlabel
    exact Vocabulary.GetCharacterFromLabel_assertion v label (by rw [hsize]; exact hlabel)
  · intro label h0 hN
    obtain ⟨c, hc, hget, _⟩ :=
      Vocabulary.new_GetCharacterFromLabel char_list size v h label h0 hN
    exact ⟨c, hc, hget⟩
  · intro label hneg
    have hlt : label < v.size := by omega
    have h0 : ¬ 0 ≤ label := by omega
    simp [Vocabulary.GetCharacterFromLabel, hlt, readAt, h0]

/-- Witness of the amended C20: the vocabulary constructed from `a`, `b`,
space; the label 1 returns `b`, the labels 3 and 7 fail the assertion. -/
theorem GetCharacterFromLabel_contract_witness :
    Vocabulary.new [97, 98, 32, 0] 3 = .ok (exampleScorer 1 0 0).vocabulary ∧
    (exampleScorer 1 0 0).vocabulary.GetCharacterFromLabel 3 = .error .assertion ∧
    (exampleScorer 1 0 0).vocabulary.GetCharacterFromLabel 7 = .error .assertion ∧
    (exampleScorer 1 0 0).vocabulary.GetCharacterFromLabel 1 = .ok 98 := by
  obtain ⟨hfail, _, _⟩ :=
    GetCharacterFromLabel_contract [97, 98, 32, 0] 3 (exampleScorer 1 0 0).vocabulary
      (by decide)
  exact ⟨by decide, hfail 3 (by decide), hfail 7 (by decide), by decide⟩

/-! ## Comparison of the scores of two label paths -/

/-- C11, the claim fails for the scorer with `lm_weight` 1 and no bonus over
`skewedModel`: the sentence of the known word `b` scores -4 + -10 = -14, and
the same path extended by a space and `a` (a proper prefix of the word `ab`,
not a word itself) scores -4 + -1 + -1 = -6, which is not lower. -/
theorem incomplete_word_not_penalised :
    skewedScorer.model.Index (skewedScorer.utf16to8 (spell skewedScorer.vocabulary [1]))
      ≠ skewedScorer.model.NotFound ∧
    skewedScorer.model.Index (skewedScorer.utf16to8 (spell skewedScorer.vocabulary [0]))
      = skewedScorer.model.NotFound ∧
    ScoreBeam skewedScorer [1] staleState staleState = .ok (-14) ∧
    ScoreBeam skewedScorer ([1] ++ 2 :: [0]) staleState staleState = .ok (-6) ∧
    ¬ ((-6 : ℚ) < -14) := by
  have hsound := ScoreBeam_labelPath skewedScorer rfl rfl (by decide) 2 (by decide) [[1]]
    (by decide) (by decide) staleState staleState
  have hext := ScoreBeam_labelPath skewedScorer rfl rfl (by decide) 2 (by decide) [[1], [0]]
    (by decide) (by decide) staleState staleState
  have hp1 : labelPath 2 [[1]] = [1] := rfl
  have hp2 : labelPath 2 [[1], [0]] = [1] ++ 2 :: [0] := rfl
  rw [hp1] at hsound
  rw [hp2] at hext
  refine ⟨by decide, by decide, ?_, ?_, by norm_num⟩
  · rw [hsound]
    simp [directScore, skewedScorer, skewedModel, exampleScorer, spell]
    norm_num
  · rw [hext]
    simp [directScore, skewedScorer, skewedModel, exampleScorer, spell]
    norm_num

/-- C11 as amended: with `lm_weight > 0` and both bonuses 0, for a non-empty
sentence of non-empty words and a non-empty further word `pre`, both spelled
with non-space labels of `[0, N)`, `ScoreBeam` returns a score for the label
path of the sentence and for that path extended by a space and `pre`, and the
second is strictly lower exactly when, in the context `cn` that the model
returns after the words of the sentence, the `FullScore` probability of the
index of `pre` plus that of the end of sentence after it is lower than that
of the end of sentence in `cn`. The score arithmetic is taken as exact: the
scores are rationals, without the rounding of `float`. -/
theorem incomplete_word_penalised_iff
    (scorer : KenLMBeamScorer State TrieNode) (space : Int) (words : List (List Int))
    (pre : List Int) (states0 states1 : KenLMBeamState State TrieNode)
    (hlm : 0 < scorer.lm_weight) (hwc : scorer.word_count_weight = 0)
    (hvwc : scorer.valid_word_count_weight = 0)
    (hwf : (scorer.vocabulary.char_list.length : Int) = scorer.vocabulary.size)
    (hspace : scorer.vocabulary.IsSpaceLabel space = .ok true)
    (hne : words ≠ [])
    (hwords : ∀ w ∈ words, w ≠ [] ∧ ∀ l ∈ w, 0 ≤ l ∧ l < scorer.vocabulary.size ∧
      scorer.vocabulary.IsSpaceLabel l = .ok false)
    (hpre : pre ≠ [] ∧ ∀ l ∈ pre, 0 ≤ l ∧ l < scorer.vocabulary.size ∧
      scorer.vocabulary.IsSpaceLabel l = .ok false) :
    ∃ sound incomplete,
      ScoreBeam scorer (labelPath space words) states0 states1 = .ok sound ∧
      ScoreBeam scorer (labelPath space words ++ space :: pre) states0 states1
        = .ok incomplete ∧
      (incomplete < sound ↔
        (scorer.model.FullScore
            (contextAfter scorer.model scorer.model.BeginSentenceState
              (words.map (fun w =>
                scorer.model.Index (scorer.utf16to8 (spell scorer.vocabulary w)))))
            (scorer.model.Index (scorer.utf16to8 (spell scorer.vocabulary pre)))).1
        + (scorer.model.FullScore
            (scorer.model.FullScore
              (contextAfter scorer.model scorer.model.BeginSentenceState
                (words.map (fun w =>
                  scorer.model.Index (scorer.utf16to8 (spell scorer.vocabulary w)))))
              (scorer.model.Index (scorer.utf16to8 (spell scorer.vocabulary pre)))).2
            scorer.model.EndSentence).1
        < (scorer.model.FullScore
            (contextAfter scorer.model scorer.model.BeginSentenceState
              (words.map (fun w =>
                scorer.model.Index (scorer.utf16to8 (spell scorer.vocabulary w)))))
            scorer.model.EndSentence).1) := by
  have hsound := ScoreBeam_labelPath scorer hwc hvwc hwf space hspace words hne hwords
    states0 states1
  have hall : ∀ w ∈ words ++ [pre], w ≠ [] ∧ ∀ l ∈ w, 0 ≤ l ∧ l < scorer.vocabulary.size ∧
      scorer.vocabulary.IsSpaceLabel l = .ok false := by
    intro w hw
    rcases List.mem_append.mp hw with hw | hw
    · exact hwords w hw
    · rw [List.mem_singleton.mp hw]
      exact hpre
  have hext := ScoreBeam_labelPath scorer hwc hvwc hwf space hspace (words ++ [pre])
    (by simp) hall states0 states1
  rw [labelPath_append_singleton space words pre hne, List.map_append, List.map_singleton,
    directScore_append_singleton] at hext
  refine ⟨_, _, hsound, hext, ?_⟩
  rw [mul_lt_mul_left hlm]
  constructor
  · intro h; linarith
  · intro h; linarith

/-- Witness of the amended C11 on the concrete scorer with `lm_weight` 1 and no
bonus: the sentence `b` scores -3 and the path of `b`, space, `a` scores -9. -/
theorem incomplete_word_penalised_iff_witness :
    (0 : ℚ) < (exampleScorer 1 0 0).lm_weight ∧
    (exampleScorer 1 0 0).vocabulary.IsSpaceLabel 2 = .ok true ∧
    ∃ sound incomplete,
      ScoreBeam (exampleScorer 1 0 0) [1] staleState staleState = .ok sound ∧
      ScoreBeam (exampleScorer 1 0 0) ([1] ++ 2 :: [0]) staleState staleState
        = .ok incomplete ∧
      incomplete < sound := by
  have hlm : (0 : ℚ) < (exampleScorer 1 0 0).lm_weight := by norm_num [exampleScorer]
  obtain ⟨sound, incomplete, hsound, hext, hiff⟩ :=
    incomplete_word_penalised_iff (exampleScorer 1 0 0) 2 [[1]] [0] staleState staleState
      hlm rfl rfl (by decide) (by decide) (by decide) (by decide) (by decide)
  refine ⟨hlm, by decide, sound, incomplete, hsound, hext, hiff.mpr ?_⟩
  simp [contextAfter, exampleScorer, exampleModel, spell]
  norm_num

/-- C12, the claim fails for the scorer with `lm_weight` 1 and no bonus over
`skewedModel`: the sentence of the known words `ab` and `b` scores
-4 + -4 + -10 = -18, and the path in which `ab` is misspelt as the unknown
word `a` scores -1 + -4 + -10 = -15, which is not lower. -/
theorem typo_not_penalised :
    (∀ w ∈ ([[0, 1], [1]] : List (List Int)),
      skewedScorer.model.Index (skewedScorer.utf16to8 (spell skewedScorer.vocabulary w))
        ≠ skewedScorer.model.NotFound) ∧
    skewedScorer.model.Index (skewedScorer.utf16to8 (spell skewedScorer.vocabulary [0]))
      = skewedScorer.model.NotFound ∧
    ScoreBeam skewedScorer [0, 1, 2, 1] staleState staleState = .ok (-18) ∧
    ScoreBeam skewedScorer [0, 2, 1] staleState staleState = .ok (-15) ∧
    ¬ ((-15 : ℚ) < -18) := by
  have hsound := ScoreBeam_labelPath skewedScorer rfl rfl (by decide) 2 (by decide)
    [[0, 1], [1]] (by decide) (by decide) staleState staleState
  have htypo := ScoreBeam_labelPath skewedScorer rfl rfl (by decide) 2 (by decide)
    [[0], [1]] (by decide) (by decide) staleState staleState
  have hp1 : labelPath 2 [[0, 1], [1]] = [0, 1, 2, 1] := rfl
  have hp2 : labelPath 2 [[0], [1]] = [0, 2, 1] := rfl
  rw [hp1] at hsound
  rw [hp2] at htypo
  refine ⟨by decide, by decide, ?_, ?_, by norm_num⟩
  · rw [hsound]
    simp [directScore, skewedScorer, skewedModel, exampleScorer, spell]
    norm_num
  · rw [htypo]
    simp [directScore, skewedScorer, skewedModel, exampleScorer, spell]
    norm_num

/-- C12 as amended: with `lm_weight > 0` and both bonuses 0, for a sentence of
non-empty words and the sentence in which one word is replaced by a non-empty
word whose index is the not-found index, all spelled with non-space labels of
`[0, N)`, `ScoreBeam` returns a score for both label paths, and the score of
the second is strictly lower exactly when the direct scoring by the model of
the word indices with the not-found index at the place of the replaced word
is strictly lower than the direct scoring of the word indices of the
sentence. The score arithmetic is taken as exact: the scores are rationals,
without the rounding of `float`. -/
theorem typo_penalised_iff
    (scorer : KenLMBeamScorer State TrieNode) (space : Int)
    (before after : List (List Int)) (w typo : List Int)
    (states0 states1 : KenLMBeamState State TrieNode)
    (hlm : 0 < scorer.lm_weight) (hwc : scorer.word_count_weight = 0)
    (hvwc : scorer.valid_word_count_weight = 0)
    (hwf : (scorer.vocabulary.char_list.length : Int) = scorer.vocabulary.size)
    (hspace : scorer.vocabulary.IsSpaceLabel space = .ok true)
    (hwords : ∀ x ∈ before ++ w :: after, x ≠ [] ∧ ∀ l ∈ x, 0 ≤ l ∧
      l < scorer.vocabulary.size ∧ scorer.vocabulary.IsSpaceLabel l = .ok false)
    (htypo : typo ≠ [] ∧ ∀ l ∈ typo, 0 ≤ l ∧ l < scorer.vocabulary.size ∧
      scorer.vocabulary.IsSpaceLabel l = .ok false)
    (hoov : scorer.model.Index (scorer.utf16to8 (spell scorer.vocabulary typo))
      = scorer.model.NotFound) :
    ∃ sound misspelt,
      ScoreBeam scorer (labelPath space (before ++ w :: after)) states0 states1 = .ok sound ∧
      ScoreBeam scorer (labelPath space (before ++ typo :: after)) states0 states1
        = .ok misspelt ∧
      (misspelt < sound ↔
        directScore scorer.model scorer.model.BeginSentenceState
          (before.map (fun x => scorer.model.Index (scorer.utf16to8 (spell scorer.vocabulary x)))
            ++ scorer.model.NotFound ::
            after.map (fun x => scorer.model.Index (scorer.utf16to8 (spell scorer.vocabulary x))))
        < directScore scorer.model scorer.model.BeginSentenceState
          (before.map (fun x => scorer.model.Index (scorer.utf16to8 (spell scorer.vocabulary x)))
            ++ scorer.model.Index (scorer.utf16to8 (spell scorer.vocabulary w)) ::
            after.map (fun x => scorer.model.Index (scorer.utf16to8 (spell scorer.vocabulary x))))) := by
  have hsound := ScoreBeam_labelPath scorer hwc hvwc hwf space hspace (before ++ w :: after)
    (by simp) hwords states0 states1
  have hall : ∀ x ∈ before ++ typo :: after, x ≠ [] ∧ ∀ l ∈ x, 0 ≤ l ∧
      l < scorer.vocabulary.size ∧ scorer.vocabulary.IsSpaceLabel l = .ok false := by
    intro x hx
    rcases List.mem_append.mp hx with hx | hx
    · exact hwords x (List.mem_append_left _ hx)
    · rcases List.mem_cons.mp hx with hx | hx
      · rw [hx]
        exact htypo
      · exact hwords x (List.mem_append_right _ (List.mem_cons_of_mem _ hx))
  have hmis := ScoreBeam_labelPath scorer hwc hvwc hwf space hspace (before ++ typo :: after)
    (by simp) hall states0 states1
  rw [List.map_append, List.map_cons] at hsound hmis
  rw [hoov] at hmis
  exact ⟨_, _, hsound, hmis, mul_lt_mul_left hlm⟩

/-- Witness of the amended C12 on the concrete scorer with `lm_weight` 1 and no
bonus: the sentence `ab b` scores -6 and the path of `a b` scores -10. -/
theorem typo_penalised_iff_witness :
    (0 : ℚ) < (exampleScorer 1 0 0).lm_weight ∧
    (exampleScorer 1 0 0).model.Index
      ((exampleScorer 1 0 0).utf16to8 (spell (exampleScorer 1 0 0).vocabulary [0]))
      = (exampleScorer 1 0 0).model.NotFound ∧
    ∃ sound misspelt,
      ScoreBeam (exampleScorer 1 0 0) [0, 1, 2, 1] staleState staleState = .ok sound ∧
      ScoreBeam (exampleScorer 1 0 0) [0, 2, 1] staleState staleState = .ok misspelt ∧
      misspelt < sound := by
  have hlm : (0 : ℚ) < (exampleScorer 1 0 0).lm_weight := by norm_num [exampleScorer]
  obtain ⟨sound, misspelt, hsound, hmis, hiff⟩ :=
    typo_penalised_iff (exampleScorer 1 0 0) 2 [] [[1]] [0, 1] [0] staleState staleState
      hlm rfl rfl (by decide) (by decide) (by decide) (by decide) (by decide)
  refine ⟨hlm, by decide, sound, misspelt, hsound, hmis, hiff.mpr ?_⟩
  simp [directScore, exampleScorer, exampleModel, spell]
  norm_num

/-! ## Safety of the expansion -/

theorem ExpandState_ok_in_range (scorer : KenLMBeamScorer State TrieNode)
    (hwf : (scorer.vocabulary.char_list.length : Int) = scorer.vocabulary.size)
    {from_state to_state result : KenLMBeamState State TrieNode} {from_label to_label : Int}
    (h : scorer.ExpandState from_state from_label to_state to_label = .ok result) :
    0 ≤ to_label ∧ to_label < scorer.vocabulary.size := by
  have hread : ∃ b, scorer.vocabulary.IsSpaceLabel to_label = .ok b := by
    rcases ExpandState_ok_cases scorer h with hs | ⟨hs, _⟩
    · exact ⟨_, hs⟩
    · exact ⟨_, hs⟩
  obtain ⟨b, hb⟩ := hread
  unfold Vocabulary.IsSpaceLabel readAt at hb
  by_cases h0 : 0 ≤ to_label
  · refine ⟨h0, ?_⟩
    by_contra hN
    have hnone : scorer.vocabulary.char_list[to_label.toNat]? = none :=
      List.getElem?_eq_none (by omega)
    simp [h0, hnone] at hb
  · simp [h0] at hb

theorem IsSpaceLabel_blank (v : Vocabulary)
    (hwf : (v.char_list.length : Int) = v.size) :
    v.IsSpaceLabel v.size = .error .out_of_bounds := by
  have hnone : v.char_list[v.size.toNat]? = none := List.getElem?_eq_none (by omega)
  have h0 : 0 ≤ v.size := by omega
  simp [Vocabulary.IsSpaceLabel, readAt, h0, hnone]

theorem ExpandState_fault (scorer : KenLMBeamScorer State TrieNode)
    (from_state to_state : KenLMBeamState State TrieNode) (from_label to_label : Int)
    (e : Fault) (h : scorer.vocabulary.IsSpaceLabel to_label = .error e) :
    scorer.ExpandState from_state from_label to_state to_label = .error e := by
  unfold KenLMBeamScorer.ExpandState
  simp only [h]

theorem ScoreBeam_fault (scorer : KenLMBeamScorer State TrieNode)
    (hwf : (scorer.vocabulary.char_list.length : Int) = scorer.vocabulary.size)
    (xs ys : List Int) (l : Int) (e : Fault)
    (hxs : ∀ x ∈ xs, 0 ≤ x ∧ x < scorer.vocabulary.size)
    (hl : scorer.vocabulary.IsSpaceLabel l = .error e)
    (states0 states1 : KenLMBeamState State TrieNode) :
    ScoreBeam scorer (xs ++ l :: ys) states0 states1 = .error e := by
  obtain ⟨st, acc, hloop⟩ := ScoreBeamLoop_in_range scorer hwf xs
    (scorer.InitializeState states0) states1 (-1) 0 hxs
  have hstep : ScoreBeamLoop scorer (l :: ys) st states1 (-1) acc = .error e := by
    simp only [ScoreBeamLoop, ExpandState_fault scorer st states1 (-1) l e hl]
  simp only [ScoreBeam, ScoreBeamLoop_append scorer xs (l :: ys) _ _ _ _ st acc hloop, hstep]

/-- C21: for a vocabulary whose character array has `N` entries, `ExpandState`
on a label `0 ≤ to_label < N` makes its vocabulary accesses within bounds
(the read of `IsSpaceLabel`, and the asserted read of
`GetCharacterFromLabel`) and returns a state; on the blank label `N` the read
of `IsSpaceLabel` is past the end of the array, and so `ExpandState` leaves
defined behaviour; and `ExpandState` returns a state only on the labels of
`[0, N)`. -/
theorem ExpandState_safe_iff_alphabet_label
    (scorer : KenLMBeamScorer State TrieNode)
    (hwf : (scorer.vocabulary.char_list.length : Int) = scorer.vocabulary.size) :
    (∀ (from_state to_state : KenLMBeamState State TrieNode) (from_label to_label : Int),
      0 ≤ to_label → to_label < scorer.vocabulary.size →
      (∃ b, scorer.vocabulary.IsSpaceLabel to_label = .ok b) ∧
      (∃ c, scorer.vocabulary.GetCharacterFromLabel to_label = .ok c) ∧
      ∃ result, scorer.ExpandState from_state from_label to_state to_label = .ok result) ∧
    (scorer.vocabulary.IsBlankLabel scorer.vocabulary.size = true ∧
      scorer.vocabulary.IsSpaceLabel scorer.vocabulary.size = .error .out_of_bounds ∧
      ∀ (from_state to_state : KenLMBeamState State TrieNode) (from_label : Int),
        scorer.ExpandState from_state from_label to_state scorer.vocabulary.size
          = .error .out_of_bounds) ∧
    (∀ (from_state to_state result : KenLMBeamState State TrieNode) (from_label to_label : Int),
      scorer.ExpandState from_state from_label to_state to_label = .ok result →
      0 ≤ to_label ∧ to_label < scorer.vocabulary.size) := by
  refine ⟨?_, ⟨?_, IsSpaceLabel_blank _ hwf, ?_⟩, ?_⟩
  · intro f t fl l h0 hN
    exact ⟨⟨_, IsSpaceLabel_in_range hwf h0 hN⟩, ⟨_, GetCharacterFromLabel_in_range hwf h0 hN⟩,
      ExpandState_in_range scorer hwf f t fl l h0 hN⟩
  · simp [Vocabulary.IsBlankLabel]
  · intro f t fl
    exact ExpandState_fault scorer f t fl _ _ (IsSpaceLabel_blank _ hwf)
  · intro f t r fl l h
    exact ExpandState_ok_in_range scorer hwf h

/-- Witness of C21 on the data of the tests: the vocabulary of the 28
characters has the blank label 28; `test_labels` starts with four labels 19
and then holds 28, on which `ExpandState` reads past the end of the array, so
that `ScoreBeam` on `test_labels` leaves defined behaviour. -/
theorem ExpandState_safe_iff_alphabet_label_witness :
    Vocabulary.new testAlphabet 28 = .ok testVocabulary ∧
    ((testScorer.vocabulary.char_list.length : Int) = testScorer.vocabulary.size) ∧
    test_labels.length = 108 ∧ (28 : Int) ∈ test_labels ∧
    (∃ result, testScorer.ExpandState (testScorer.InitializeState staleState) (-1) staleState 19
      = .ok result) ∧
    testScorer.ExpandState staleState 19 staleState 28 = .error .out_of_bounds ∧
    ScoreBeam testScorer test_labels staleState staleState = .error .out_of_bounds := by
  obtain ⟨hsafe, ⟨_, hread, hblank⟩, _⟩ :=
    ExpandState_safe_iff_alphabet_label testScorer (by decide)
  refine ⟨by decide, by decide, by decide, by decide,
    (hsafe _ staleState (-1) 19 (by decide) (by decide)).2.2, hblank staleState staleState 19, ?_⟩
  have hsplit : test_labels = [19, 19, 19, 19] ++ 28 :: test_labels.drop 5 := by decide
  rw [hsplit]
  exact ScoreBeam_fault testScorer (by decide) [19, 19, 19, 19] _ 28 .out_of_bounds
    (by decide) hread staleState staleState

/-! ## The label mapper of the trie-build tool -/

theorem lookup_append_singleton (m : List (wchar_t × Int)) (a c : wchar_t) (l : Int) :
    (m ++ [(c, l)]).lookup a =
      match m.lookup a with
      | some x => some x
      | none => if a = c then some l else none := by
  induction m with
  | nil =>
    by_cases h : a = c
    · subst h
      simp [List.lookup_cons]
    · have hb : (a == c) = false := by simpa using h
      simp [List.lookup_cons, hb, h]
  | cons p ps ih =>
    obtain ⟨k, b⟩ := p
    by_cases hk : a = k
    · subst hk
      simp [List.lookup_cons]
    · have hb : (a == k) = false := by simpa using hk
      simp only [List.cons_append, List.lookup_cons, hb]
      exact ih

theorem GetLabelFromCharacter_of_some (v : Vocabulary) (c : wchar_t) (l : Int)
    (h : v.char_to_label.lookup c = some l) : v.GetLabelFromCharacter c = (l, v) := by
  simp [Vocabulary.GetLabelFromCharacter, h]

theorem GetLabelFromCharacter_of_none (v : Vocabulary) (c : wchar_t)
    (h : v.char_to_label.lookup c = none) :
    v.GetLabelFromCharacter c =
      (0, { v with char_to_label := v.char_to_label ++ [(c, 0)] }) := by
  simp [Vocabulary.GetLabelFromCharacter, h]

theorem GetLabelFromCharacter_size (v : Vocabulary) (c : wchar_t) :
    (v.GetLabelFromCharacter c).2.size = v.size ∧
    (v.GetLabelFromCharacter c).2.char_list = v.char_list := by
  cases h : v.char_to_label.lookup c with
  | none => rw [GetLabelFromCharacter_of_none v c h]; exact ⟨rfl, rfl⟩
  | some l => rw [GetLabelFromCharacter_of_some v c l h]; exact ⟨rfl, rfl⟩

theorem GetLabelFromCharacter_lookup (v : Vocabulary) (c a : wchar_t) :
    (v.GetLabelFromCharacter c).2.char_to_label.lookup a =
      match v.char_to_label.lookup a with
      | some x => some x
      | none => if a = c then some 0 else none := by
  cases h : v.char_to_label.lookup c with
  | none =>
    rw [GetLabelFromCharacter_of_none v c h]
    exact lookup_append_singleton _ a c 0
  | some l =>
    rw [GetLabelFromCharacter_of_some v c l h]
    cases ha : v.char_to_label.lookup a with
    | some x => rfl
    | none =>
      have hne : a ≠ c := by
        intro hac
        rw [hac, h] at ha
        cases ha
      simp [hne]

theorem zeroOrAbsent_GetLabelFromCharacter (u c : wchar_t) (v : Vocabulary)
    (h : zeroOrAbsent u v) : zeroOrAbsent u (v.GetLabelFromCharacter c).2 := by
  unfold zeroOrAbsent at h ⊢
  rw [GetLabelFromCharacter_lookup]
  rcases h with h | h
  · rw [h]
    by_cases huc : u = c
    · right; simp [huc]
    · left; simp [huc]
  · rw [h]
    right; rfl

theorem zeroOrAbsent_label (u : wchar_t) (v : Vocabulary) (h : zeroOrAbsent u v) :
    (v.GetLabelFromCharacter u).1 = 0 ∧
    (v.GetLabelFromCharacter u).2.char_to_label.lookup u = some 0 := by
  rcases h with h | h
  · rw [GetLabelFromCharacter_of_none v u h]
    refine ⟨rfl, ?_⟩
    show (v.char_to_label ++ [(u, (0 : Int))]).lookup u = some 0
    rw [lookup_append_singleton, h]
    simp
  · rw [GetLabelFromCharacter_of_some v u 0 h]
    exact ⟨rfl, h⟩

theorem zeroOrAbsent_labelsOfWord (u : wchar_t) (word : List wchar_t) :
    ∀ v : Vocabulary, zeroOrAbsent u v → zeroOrAbsent u (labelsOfWord v word).2 := by
  induction word with
  | nil => intro v h; exact h
  | cons c cs ih =>
    intro v h
    exact ih _ (zeroOrAbsent_GetLabelFromCharacter u c v h)

theorem labelsOfWord_append (xs ys : List wchar_t) :
    ∀ v : Vocabulary,
      labelsOfWord v (xs ++ ys) =
        ((labelsOfWord v xs).1 ++ (labelsOfWord (labelsOfWord v xs).2 ys).1,
          (labelsOfWord (labelsOfWord v xs).2 ys).2) := by
  induction xs with
  | nil => intro v; rfl
  | cons c cs ih =>
    intro v
    show ((v.GetLabelFromCharacter c).1 ::
        (labelsOfWord (v.GetLabelFromCharacter c).2 (cs ++ ys)).1,
      (labelsOfWord (v.GetLabelFromCharacter c).2 (cs ++ ys)).2) = _
    rw [ih]
    rfl

theorem labelsInRange_GetLabelFromCharacter (N : Int) (hN : 0 < N) (c : wchar_t)
    (v : Vocabulary) (h : labelsInRange N v) :
    (0 ≤ (v.GetLabelFromCharacter c).1 ∧ (v.GetLabelFromCharacter c).1 < N) ∧
    labelsInRange N (v.GetLabelFromCharacter c).2 := by
  constructor
  · cases hc : v.char_to_label.lookup c with
    | none =>
      rw [GetLabelFromCharacter_of_none v c hc]
      exact ⟨le_refl _, hN⟩
    | some l =>
      rw [GetLabelFromCharacter_of_some v c l hc]
      exact h c l hc
  · intro a l ha
    rw [GetLabelFromCharacter_lookup] at ha
    cases hv : v.char_to_label.lookup a with
    | some x =>
      rw [hv] at ha
      have hx : x = l := Option.some.inj ha
      rw [← hx]
      exact h a x hv
    | none =>
      rw [hv] at ha
      by_cases hac : a = c
      · simp [hac] at ha
        rw [← ha]
        exact ⟨le_refl _, hN⟩
      · simp [hac] at ha

theorem Vocabulary.fill_labelsInRange (src : List wchar_t) (B : Int) (n : Nat) :
    ∀ (i : Nat) (v v' : Vocabulary), Vocabulary.fill src n i v = .ok v' →
      ((i + n : Nat) : Int) ≤ B → labelsInRange B v → labelsInRange B v' := by
  induction n with
  | zero =>
    intro i v v' h _ hv
    simp only [Vocabulary.fill] at h
    cases h
    exact hv
  | succ n ih =>
    intro i v v' h hB hv
    cases hsrc : src[i]? with
    | none => simp [Vocabulary.fill, hsrc] at h
    | some d =>
      simp only [Vocabulary.fill, hsrc] at h
      refine ih _ _ _ h (by omega) ?_
      intro a l ha
      simp only [lookup_mapAssign] at ha
      by_cases had : a = d
      · simp only [had, if_true] at ha
        cases ha
        omega
      · simp only [had, if_false] at ha
        exact hv a l ha

theorem Vocabulary.new_labelsInRange (char_list : List wchar_t) (size : Int) (v : Vocabulary)
    (h : Vocabulary.new char_list size = .ok v) : labelsInRange size v := by
  obtain ⟨hnonneg, _, _, _⟩ := Vocabulary.new_char_list char_list size v h
  refine Vocabulary.fill_labelsInRange char_list size size.toNat 0 _ v
    (Vocabulary.new_fill char_list size v h) (by omega) ?_
  intro c l hl
  simp at hl

theorem Vocabulary.new_lookup_absent (char_list : List wchar_t) (size : Int) (v : Vocabulary)
    (h : Vocabulary.new char_list size = .ok v) (u : wchar_t)
    (hu : u ∉ char_list.take size.toNat) : v.char_to_label.lookup u = none := by
  have hfill := Vocabulary.new_fill char_list size v h
  rw [Vocabulary.fill_lookup_absent char_list u size.toNat 0 _ v hfill]
  · rfl
  · intro k _ hk hsome
    apply hu
    refine List.mem_iff_getElem?.mpr ⟨k, ?_⟩
    rw [List.getElem?_take_of_lt (by omega)]
    exact hsome

/-! ## Insertion of a word by the trie-build tool -/

theorem TrieNodeObj.descendObj_append (xs ys : List Int) :
    ∀ node : TrieNodeObj,
      node.descendObj (xs ++ ys) =
        (node.descendObj xs).bind (fun m => m.descendObj ys) := by
  induction xs with
  | nil => intro node; rfl
  | cons l ls ih =>
    intro node
    show (match node.ChildAt l with
      | some child => child.descendObj (ls ++ ys)
      | none => none) = _
    simp only [TrieNodeObj.descendObj]
    cases node.ChildAt l with
    | none => rfl
    | some child => exact ih child

theorem TrieNodeObj.descendObj_fresh_score (policy : AggregationPolicy) (labels : List Int) :
    (((TrieNodeObj.fresh policy).descendObj labels).map TrieNodeObj.Score).getD policy.initial
      = policy.initial := by
  cases labels with
  | nil => rfl
  | cons l ls => rfl

theorem TrieNodeObj.Insert_GetLabelFromCharacter (N : Int) (hN : 0 < N)
    (policy : AggregationPolicy) (wordIndex : WordIndex) (unigramScore : ℚ)
    (word : List wchar_t) :
    ∀ (node : TrieNodeObj) (v : Vocabulary), labelsInRange N v →
      ∃ node' terminal,
        node.Insert N policy
          (fun (vocabulary : Vocabulary) (c : wchar_t) => vocabulary.GetLabelFromCharacter c)
          word wordIndex unigramScore v = .ok (node', (labelsOfWord v word).2) ∧
        node'.descendObj (labelsOfWord v word).1 = some terminal ∧
        terminal.Score = policy.incorporate true
          (((node.descendObj (labelsOfWord v word).1).map TrieNodeObj.Score).getD
            policy.initial) unigramScore := by
  induction word with
  | nil =>
    intro node v _
    cases node with
    | mk score children =>
      exact ⟨_, _, rfl, rfl, rfl⟩
  | cons c cs ih =>
    intro node v hv
    cases node with
    | mk score children =>
      obtain ⟨hrange, hv'⟩ := labelsInRange_GetLabelFromCharacter N hN c v hv
      obtain ⟨child', terminal, hins, hdesc, hscore⟩ :=
        ih ((children.lookup (v.GetLabelFromCharacter c).1).getD (TrieNodeObj.fresh policy))
          (v.GetLabelFromCharacter c).2 hv'
      refine ⟨TrieNodeObj.mk (policy.incorporate false score unigramScore)
        (((v.GetLabelFromCharacter c).1, child') ::
          children.filter (fun p => p.1 != (v.GetLabelFromCharacter c).1)), terminal, ?_, ?_, ?_⟩
      · simp only [TrieNodeObj.Insert, hrange, and_self, if_true, hins]
        rfl
      · show (match (TrieNodeObj.mk (policy.incorporate false score unigramScore)
            (((v.GetLabelFromCharacter c).1, child') ::
              children.filter (fun p => p.1 != (v.GetLabelFromCharacter c).1))).ChildAt
              (v.GetLabelFromCharacter c).1 with
          | some child => child.descendObj (labelsOfWord (v.GetLabelFromCharacter c).2 cs).1
          | none => none) = some terminal
        simp only [TrieNodeObj.ChildAt, List.lookup_cons, beq_self_eq_true]
        exact hdesc
      · rw [hscore]
        congr 1
        show _ = ((match (TrieNodeObj.mk score children).ChildAt (v.GetLabelFromCharacter c).1 with
          | some child => child.descendObj (labelsOfWord (v.GetLabelFromCharacter c).2 cs).1
          | none => none).map TrieNodeObj.Score).getD policy.initial
        simp only [TrieNodeObj.ChildAt]
        cases children.lookup (v.GetLabelFromCharacter c).1 with
        | none =>
          simp only [Option.getD_none, Option.map_none']
          exact TrieNodeObj.descendObj_fresh_score policy _
        | some ch => rfl

theorem GetLabelFromCharacter_lookup_persist (v : Vocabulary) (c a : wchar_t) (x : Int)
    (h : v.char_to_label.lookup a = some x) :
    (v.GetLabelFromCharacter c).2.char_to_label.lookup a = some x := by
  rw [GetLabelFromCharacter_lookup, h]

theorem labelsOfWord_lookup_persist (a : wchar_t) (x : Int) (word : List wchar_t) :
    ∀ v : Vocabulary, v.char_to_label.lookup a = some x →
      (labelsOfWord v word).2.char_to_label.lookup a = some x := by
  induction word with
  | nil => intro v h; exact h
  | cons c cs ih =>
    intro v h
    exact ih _ (GetLabelFromCharacter_lookup_persist v c a x h)

theorem toolInvariant_new (char_list : List wchar_t) (size : Int) (u : wchar_t)
    (v : Vocabulary) (hnew : Vocabulary.new char_list size = .ok v)
    (hu : u ∉ char_list.take size.toNat) : toolInvariant char_list size u v := by
  obtain ⟨_, hsize, hlist, _⟩ := Vocabulary.new_char_list char_list size v hnew
  exact ⟨Vocabulary.new_labelsInRange char_list size v hnew,
    Or.inl (Vocabulary.new_lookup_absent char_list size v hnew u hu), hsize, hlist⟩

theorem toolInvariant_GetLabelFromCharacter (char_list : List wchar_t) (size : Int)
    (hpos : 0 < size) (u c : wchar_t) (v : Vocabulary)
    (h : toolInvariant char_list size u v) :
    toolInvariant char_list size u (v.GetLabelFromCharacter c).2 := by
  obtain ⟨hrange, hzero, hsize, hlist⟩ := h
  refine ⟨(labelsInRange_GetLabelFromCharacter size hpos c v hrange).2,
    zeroOrAbsent_GetLabelFromCharacter u c v hzero, ?_, ?_⟩
  · rw [(GetLabelFromCharacter_size v c).1, hsize]
  · rw [(GetLabelFromCharacter_size v c).2, hlist]

theorem toolInvariant_labelsOfWord (char_list : List wchar_t) (size : Int)
    (hpos : 0 < size) (u : wchar_t) (word : List wchar_t) :
    ∀ v : Vocabulary, toolInvariant char_list size u v →
      toolInvariant char_list size u (labelsOfWord v word).2 := by
  induction word with
  | nil => intro v h; exact h
  | cons c cs ih =>
    intro v h
    exact ih _ (toolInvariant_GetLabelFromCharacter char_list size hpos u c v h)

theorem insertWord_ok (model : Model State) (utf8to16 : std_string → wstring)
    (policy : AggregationPolicy) (char_list : List wchar_t) (size : Int) (hpos : 0 < size)
    (u : wchar_t) (root : TrieNodeObj) (v : Vocabulary) (word : std_string)
    (h : toolInvariant char_list size u v) :
    ∃ root', insertWord model utf8to16 policy root v word
      = .ok (root', (labelsOfWord v (utf8to16 word)).2) := by
  obtain ⟨root', _, hins, _, _⟩ :=
    TrieNodeObj.Insert_GetLabelFromCharacter size hpos policy (GetWordIndex model word)
      (ScoreWord model (GetWordIndex model word)) (utf8to16 word) root v h.1
  refine ⟨root', ?_⟩
  simp only [insertWord, Vocabulary.GetSize, h.2.2.1]
  exact hins

theorem generateTrie_ok (model : Model State) (utf8to16 : std_string → wstring)
    (policy : AggregationPolicy) (char_list : List wchar_t) (size : Int) (hpos : 0 < size)
    (u : wchar_t) (words : List std_string) :
    ∀ (root : TrieNodeObj) (v : Vocabulary), toolInvariant char_list size u v →
      ∃ root1 v1, generateTrie model utf8to16 policy words root v = .ok (root1, v1) ∧
        toolInvariant char_list size u v1 := by
  induction words with
  | nil => intro root v h; exact ⟨root, v, rfl, h⟩
  | cons word words ih =>
    intro root v h
    obtain ⟨root', hins⟩ :=
      insertWord_ok model utf8to16 policy char_list size hpos u root v word h
    obtain ⟨root1, v1, hloop, hinv⟩ :=
      ih root' _ (toolInvariant_labelsOfWord char_list size hpos u (utf8to16 word) v h)
    refine ⟨root1, v1, ?_, hinv⟩
    simp only [generateTrie, hins]
    exact hloop

theorem generateTrie_append (model : Model State) (utf8to16 : std_string → wstring)
    (policy : AggregationPolicy) (words later : List std_string) :
    ∀ (root : TrieNodeObj) (v : Vocabulary) (root1 : TrieNodeObj) (v1 : Vocabulary),
      generateTrie model utf8to16 policy words root v = .ok (root1, v1) →
      generateTrie model utf8to16 policy (words ++ later) root v
        = generateTrie model utf8to16 policy later root1 v1 := by
  induction words with
  | nil =>
    intro root v root1 v1 h
    simp only [generateTrie, Except.ok.injEq, Prod.mk.injEq] at h
    obtain ⟨h1, h2⟩ := h
    subst h1
    subst h2
    rfl
  | cons word words ih =>
    intro root v root1 v1 h
    simp only [generateTrie, List.cons_append] at h ⊢
    cases hins : insertWord model utf8to16 policy root v word with
    | error e => rw [hins] at h; cases h
    | ok r =>
      obtain ⟨root2, v2⟩ := r
      rw [hins] at h
      exact ih root2 v2 root1 v1 h

theorem insertWord_unknown_character
    (char_list : List wchar_t) (size : Int) (v : Vocabulary) (u : wchar_t)
    (model : Model State) (utf8to16 : std_string → wstring) (policy : AggregationPolicy)
    (root : TrieNodeObj) (word : std_string) (pre post : wstring)
    (hinv : toolInvariant char_list size u v) (hpos : 0 < size)
    (hword : utf8to16 word = pre ++ u :: post) :
    ∃ root' v' node child terminal,
      insertWord model utf8to16 policy root v word = .ok (root', v') ∧
      root'.descendObj (labelsOfWord v pre).1 = some node ∧
      node.ChildAt 0 = some child ∧
      child.descendObj
        (labelsOfWord ((labelsOfWord v pre).2.GetLabelFromCharacter u).2 post).1
        = some terminal ∧
      terminal.Score = policy.incorporate true
        (((root.descendObj
            ((labelsOfWord v pre).1 ++ 0 ::
              (labelsOfWord ((labelsOfWord v pre).2.GetLabelFromCharacter u).2 post).1)).map
          TrieNodeObj.Score).getD policy.initial)
        (ScoreWord model (GetWordIndex model word)) ∧
      v'.GetLabelFromCharacter u = (0, v') := by
  obtain ⟨hrange, hzero, hsize, _⟩ := hinv
  have hpre : zeroOrAbsent u (labelsOfWord v pre).2 :=
    zeroOrAbsent_labelsOfWord u pre v hzero
  have hzero1 := zeroOrAbsent_label u (labelsOfWord v pre).2 hpre
  have hlabels : (labelsOfWord v (pre ++ u :: post)).1 =
      (labelsOfWord v pre).1 ++ 0 ::
        (labelsOfWord ((labelsOfWord v pre).2.GetLabelFromCharacter u).2 post).1 := by
    rw [labelsOfWord_append]
    show (labelsOfWord v pre).1 ++
      ((labelsOfWord v pre).2.GetLabelFromCharacter u).1 ::
        (labelsOfWord ((labelsOfWord v pre).2.GetLabelFromCharacter u).2 post).1 = _
    rw [hzero1.1]
  have hstate : (labelsOfWord v (pre ++ u :: post)).2 =
      (labelsOfWord ((labelsOfWord v pre).2.GetLabelFromCharacter u).2 post).2 := by
    rw [labelsOfWord_append]
    rfl
  obtain ⟨root', terminal, hins, hdesc, hscore⟩ :=
    TrieNodeObj.Insert_GetLabelFromCharacter size hpos policy (GetWordIndex model word)
      (ScoreWord model (GetWordIndex model word)) (pre ++ u :: post) root v hrange
  rw [hlabels] at hdesc hscore
  rw [TrieNodeObj.descendObj_append] at hdesc
  cases hnode : root'.descendObj (labelsOfWord v pre).1 with
  | none => rw [hnode] at hdesc; cases hdesc
  | some node =>
    rw [hnode] at hdesc
    have hdesc' : (match node.ChildAt 0 with
        | some child => child.descendObj
            (labelsOfWord ((labelsOfWord v pre).2.GetLabelFromCharacter u).2 post).1
        | none => none) = some terminal := hdesc
    cases hchild : node.ChildAt 0 with
    | none => rw [hchild] at hdesc'; cases hdesc'
    | some child =>
      rw [hchild] at hdesc'
      refine ⟨root', (labelsOfWord v (pre ++ u :: post)).2, node, child, terminal, ?_, hnode,
        hchild, hdesc', hscore, ?_⟩
      · simp only [insertWord, hword, Vocabulary.GetSize, hsize]
        exact hins
      · apply GetLabelFromCharacter_of_some
        rw [hstate]
        exact labelsOfWord_lookup_persist u 0 post _ hzero1.2

/-- C22: the trie-build tool constructs its vocabulary from a character list
with size `N > 0` and runs its loop from an empty trie. After any words
`earlier` of the input, whether they held unknown characters or not, for a
character `u` that is not among the `N` characters: the loop has not failed;
`GetLabelFromCharacter(u)` on the vocabulary of the tool returns the label 0,
which is the label of the first character of the list, and records `u` in the
map, so that the next lookup of `u` returns 0 and leaves the map as it is.
Hence the next iteration, on a word `pre ++ u :: post`, returns a trie in
which the path of the word goes from the node of the labels of `pre` through
its child at label 0 and ends in a node whose cached score has incorporated
the unigram score of the word; afterwards the lookup of `u` still returns 0. -/
theorem GetLabelFromCharacter_unknown_character
    (char_list : List wchar_t) (size : Int) (v0 : Vocabulary) (u : wchar_t)
    (model : Model State) (utf8to16 : std_string → wstring) (policy : AggregationPolicy)
    (earlier : List std_string) (word : std_string) (pre post : wstring)
    (hnew : Vocabulary.new char_list size = .ok v0) (hpos : 0 < size)
    (hu : u ∉ char_list.take size.toNat)
    (hword : utf8to16 word = pre ++ u :: post) :
    ∃ root v,
      generateTrie model utf8to16 policy earlier (TrieNodeObj.fresh policy) v0 = .ok (root, v) ∧
      (v.GetLabelFromCharacter u).1 = 0 ∧
      (∃ first, char_list[0]? = some first ∧ v.GetCharacterFromLabel 0 = .ok first) ∧
      (v.GetLabelFromCharacter u).2.char_to_label.lookup u = some 0 ∧
      (v.GetLabelFromCharacter u).2.GetLabelFromCharacter u
        = (0, (v.GetLabelFromCharacter u).2) ∧
      ∃ root' v' node child terminal,
        insertWord model utf8to16 policy root v word = .ok (root', v') ∧
        generateTrie model utf8to16 policy (earlier ++ [word]) (TrieNodeObj.fresh policy) v0
          = .ok (root', v') ∧
        root'.descendObj (labelsOfWord v pre).1 = some node ∧
        node.ChildAt 0 = some child ∧
        child.descendObj
          (labelsOfWord ((labelsOfWord v pre).2.GetLabelFromCharacter u).2 post).1
          = some terminal ∧
        terminal.Score = policy.incorporate true
          (((root.descendObj
              ((labelsOfWord v pre).1 ++ 0 ::
                (labelsOfWord ((labelsOfWord v pre).2.GetLabelFromCharacter u).2 post).1)).map
            TrieNodeObj.Score).getD policy.initial)
          (ScoreWord model (GetWordIndex model word)) ∧
        v'.GetLabelFromCharacter u = (0, v') := by
  obtain ⟨root, v, hloop, hinv⟩ :=
    generateTrie_ok model utf8to16 policy char_list size hpos u earlier
      (TrieNodeObj.fresh policy) v0 (toolInvariant_new char_list size u v0 hnew hu)
  have hzero := zeroOrAbsent_label u v hinv.2.1
  obtain ⟨root', v', node, child, terminal, hins, hnode, hchild, hterm, hscore, hlater⟩ :=
    insertWord_unknown_character char_list size v u model utf8to16 policy root word pre post
      hinv hpos hword
  refine ⟨root, v, hloop, hzero.1, ?_, hzero.2, GetLabelFromCharacter_of_some _ u 0 hzero.2,
    root', v', node, child, terminal, hins, ?_, hnode, hchild, hterm, hscore, hlater⟩
  · obtain ⟨c, hc, hget, _⟩ :=
      Vocabulary.new_GetCharacterFromLabel char_list size v0 hnew 0 (le_refl _) hpos
    obtain ⟨_, hsize0, hlist0, _⟩ := Vocabulary.new_char_list char_list size v0 hnew
    refine ⟨c, by simpa using hc, ?_⟩
    have hsame : v.GetCharacterFromLabel 0 = v0.GetCharacterFromLabel 0 := by
      simp only [Vocabulary.GetCharacterFromLabel, hinv.2.2.1, hinv.2.2.2, hsize0, hlist0]
    rw [hsame]
    exact hget
  · rw [generateTrie_append model utf8to16 policy earlier [word] (TrieNodeObj.fresh policy) v0
      root v hloop]
    simp only [generateTrie, hins]

theorem GetLabelFromCharacter_unknown_character_witness :
    Vocabulary.new [97, 98, 32, 0] 3 = .ok (exampleScorer 1 0 0).vocabulary ∧
    (0 : Int) < 3 ∧ (120 : wchar_t) ∉ List.take (3 : Int).toNat [97, 98, 32, 0] ∧
    ∃ root v,
      generateTrie exampleModel (fun bytes => bytes) minPolicy [[97, 120, 98]]
        (TrieNodeObj.fresh minPolicy) (exampleScorer 1 0 0).vocabulary = .ok (root, v) ∧
      v.char_to_label.lookup 120 = some 0 ∧
      (v.GetLabelFromCharacter 120).1 = 0 ∧
      v.GetCharacterFromLabel 0 = .ok 97 ∧
      ∃ root' v' node child terminal,
        insertWord exampleModel (fun bytes => bytes) minPolicy root v [120, 98]
          = .ok (root', v') ∧
        generateTrie exampleModel (fun bytes => bytes) minPolicy [[97, 120, 98], [120, 98]]
          (TrieNodeObj.fresh minPolicy) (exampleScorer 1 0 0).vocabulary = .ok (root', v') ∧
        root'.descendObj [] = some node ∧
        node.ChildAt 0 = some child ∧
        child.descendObj [1] = some terminal ∧
        v'.GetLabelFromCharacter 120 = (0, v') := by
  obtain ⟨root, v, hloop, hzero, ⟨first, hfirst, hget⟩, _, _, root', v', node, child, terminal,
      hins, hboth, hnode, hchild, hterm, _, hlater⟩ :=
    GetLabelFromCharacter_unknown_character [97, 98, 32, 0] 3 (exampleScorer 1 0 0).vocabulary
      120 exampleModel (fun bytes => bytes) minPolicy [[97, 120, 98]]
      [120, 98] [] [98] (by decide) (by decide) (by decide) rfl
  obtain ⟨root1, hfirstWord⟩ :=
    insertWord_ok exampleModel (fun bytes => bytes) minPolicy [97, 98, 32, 0] 3 (by decide) 120
      (TrieNodeObj.fresh minPolicy) (exampleScorer 1 0 0).vocabulary [97, 120, 98]
      (toolInvariant_new [97, 98, 32, 0] 3 120 (exampleScorer 1 0 0).vocabulary (by decide)
        (by decide))
  have hv : v = (labelsOfWord (exampleScorer 1 0 0).vocabulary [97, 120, 98]).2 := by
    simp only [generateTrie, hfirstWord, Except.ok.injEq, Prod.mk.injEq] at hloop
    exact hloop.2.symm
  subst hv
  have hpost : (labelsOfWord
      ((labelsOfWord (labelsOfWord (exampleScorer 1 0 0).vocabulary [97, 120, 98]).2
        []).2.GetLabelFromCharacter 120).2 [98]).1 = [1] := by decide
  have hc : first = 97 := by
    have h97 : ([97, 98, 32, 0] : List wchar_t)[0]? = some 97 := rfl
    rw [h97] at hfirst
    exact (Option.some.inj hfirst).symm
  rw [hpost] at hterm
  rw [hc] at hget
  exact ⟨by decide, by decide, by decide, root, _, hloop, by decide, hzero, hget,
    root', v', node, child, terminal, hins, hboth, hnode, hchild, hterm, hlater⟩

/-! ## The order of the additions in binary32 -/

theorem spaceBranchSum_exact (scorer : KenLMBeamScorer State TrieNode)
    (from_state : KenLMBeamState State TrieNode) :
    closedScore scorer from_state =
      spaceBranchSum (fun x y => x + y) from_state.language_model_score
        scorer.valid_word_count_weight scorer.word_count_weight
        (scorer.ScoreIncompleteWord from_state.model_state from_state.incomplete_word).1
        (scorer.IsOOV from_state.incomplete_word) := by
  simp only [closedScore, spaceBranchSum]
  cases scorer.IsOOV from_state.incomplete_word <;> simp

end ctc
end tensorflow
